import Mathlib

/-!
Meshlet helpers of Auto-Vk-Toolkit: packing for GPU usage, cache adapter and partitioner.

Shallow embedding of `framework/include/meshlet_helpers.hpp`.

* `std::vector<T>` is a `List`, `std::optional<T>` is an `Option`.
* `uint32_t` and `uint8_t` values are natural numbers; every place where the
  source narrows or wraps a value carries an explicit `% 4294967296` or `% 256`.
* The host is little-endian: byte `k` of a 32-bit word `w` is `w / 256 ^ k % 256`.
-/

namespace gvk

/-! ## Data model -/

/-- Handle `gvk::model`: an owning resource around a `model_t`. Only the identity of the
referenced `model_t` and whether shared ownership is enabled are kept. -/
structure model where
  /-- Identity of the referenced `model_t`. -/
  mModelData : Nat
  /-- Whether `enable_shared_ownership` has been called on the handle. -/
  mSharedOwnership : Bool
deriving DecidableEq

/-- The type `mesh_index_t`. -/
abbrev mesh_index_t := Nat

/-- Meshlet struct for the CPU side (`struct meshlet`). -/
structure meshlet where
  /-- The model of the meshlet. -/
  mModel : model
  /-- The optional mesh index of the meshlet. -/
  mMeshIndex : Option mesh_index_t
  /-- Indices into the original vertex attributes of the mesh (`std::vector<uint32_t>`). -/
  mVertices : List Nat
  /-- Indices into the `mVertices` vector (`std::vector<uint8_t>`). -/
  mIndices : List Nat
  /-- The actual number of vertices inside of `mVertices` (`uint32_t`). -/
  mVertexCount : Nat
  /-- The actual number of indices in `mIndices` (`uint32_t`). -/
  mIndexCount : Nat
deriving DecidableEq

/-- Value ranges of the C++ field types of `meshlet`: the two counts and the vertex indices
are `uint32_t`, the local indices are `uint8_t`. -/
def meshlet.in_range (m : meshlet) : Prop :=
  m.mVertexCount < 4294967296 ∧ m.mIndexCount < 4294967296 ∧
    (∀ v ∈ m.mVertices, v < 4294967296) ∧ (∀ b ∈ m.mIndices, b < 256)

instance (m : meshlet) : Decidable m.in_range := by
  unfold meshlet.in_range
  infer_instance

/-- Meshlet for GPU usage in combination with the meshlet data generated by
`convert_for_gpu_usage` (`struct meshlet_redirected_gpu_data`). -/
structure meshlet_redirected_gpu_data where
  /-- Data offset into the meshlet data array (`uint32_t`). -/
  mDataOffset : Nat
  /-- The vertex count (`uint8_t`). -/
  mVertexCount : Nat
  /-- The primitive count (`uint8_t`). -/
  mPrimitiveCount : Nat
deriving DecidableEq

/-! ## Redirected packing -/

/-- Byte `k` of the memory that starts at `meshlet.mIndices.data()`. Inside the vector this is
the `k`-th local index. The source reads whole 32-bit groups, so it may read up to three bytes
past the last element: those bytes are whatever the host memory holds there, given by
`aTrailing` (position counted from the end of the vector). -/
def index_byte (aTrailing : Nat → Nat) (aIndices : List Nat) (k : Nat) : Nat :=
  if h : k < aIndices.length then aIndices[k] % 256
  else aTrailing (k - aIndices.length) % 256

/-- The value `indexGroups[g]`: the `uint32_t` read at byte offset `4 * g` from
`reinterpret_cast<const uint32_t*>(meshlet.mIndices.data())` on a little-endian host. -/
def index_group (aTrailing : Nat → Nat) (aIndices : List Nat) (g : Nat) : Nat :=
  index_byte aTrailing aIndices (4 * g)
    + 256 * index_byte aTrailing aIndices (4 * g + 1)
    + 65536 * index_byte aTrailing aIndices (4 * g + 2)
    + 16777216 * index_byte aTrailing aIndices (4 * g + 3)

/-- The value `indexGroupCount`: `(meshlet.mIndexCount + 3) / 4` in `uint32_t` arithmetic. -/
def index_group_count (m : meshlet) : Nat :=
  (m.mIndexCount + 3) % 4294967296 / 4

/-- The words `indexGroups[0 .. indexGroupCount)` appended to the pool for one meshlet. -/
def index_groups (aTrailing : Nat → Nat) (m : meshlet) : List Nat :=
  (List.range (index_group_count m)).map (index_group aTrailing m.mIndices)

/-- One iteration of the loop of `convert_for_gpu_usage` in the branch taken for
`T = meshlet_redirected_gpu_data`. The state is `(gpuMeshlets, vertexIndices)`.
`aHeap i` is the memory behind the local-index vector of the `i`-th meshlet. -/
def redirected_entry (aHeap : Nat → Nat → Nat)
    (aState : List meshlet_redirected_gpu_data × Option (List Nat)) (m : meshlet) :
    List meshlet_redirected_gpu_data × Option (List Nat) :=
  let vertexIndices : List Nat := aState.2.getD []
  let ml : meshlet_redirected_gpu_data :=
    { mVertexCount := m.mVertexCount % 256
      mPrimitiveCount := m.mIndexCount / 3 % 256
      mDataOffset := vertexIndices.length % 4294967296 }
  (aState.1 ++ [ml],
    some (vertexIndices ++ m.mVertices ++ index_groups (aHeap aState.1.length) m))

/-- The function `convert_for_gpu_usage<meshlet_redirected_gpu_data, NV, NI>`: returns the
records and the optional meshlet data pool. -/
def convert_for_gpu_usage_redirected (aHeap : Nat → Nat → Nat) (aMeshlets : List meshlet) :
    List meshlet_redirected_gpu_data × Option (List Nat) :=
  aMeshlets.foldl (redirected_entry aHeap) ([], none)

/-- The pool held by a loop state, empty while `vertexIndices` has no value. -/
def pool_of (aState : List meshlet_redirected_gpu_data × Option (List Nat)) : List Nat :=
  aState.2.getD []

/-- The loop state of redirected packing after the first `i` meshlets. -/
def redirected_state (aHeap : Nat → Nat → Nat) (aMeshlets : List meshlet) (i : Nat) :
    List meshlet_redirected_gpu_data × Option (List Nat) :=
  (aMeshlets.take i).foldl (redirected_entry aHeap) ([], none)

/-- Byte `k` (counted from the least significant byte) of a 32-bit word. -/
def word_byte (w k : Nat) : Nat :=
  w / 256 ^ k % 256

/-! ## Fixed-layout packing -/

/-- Ways in which the modelled calls can fail to return. -/
inductive failure where
  /-- An `avk::logic_error` was thrown. -/
  | logic_error
  /-- A copy wrote past the end of the record that holds the fixed-size arrays (undefined
  behaviour in C++). -/
  | out_of_bounds
  /-- The serializer had no more data to read. -/
  | stream_exhausted
  /-- The call `get()` was made on a `gvk::model` handle that holds no model. -/
  | empty_model
deriving DecidableEq

/-- Meshlet for GPU usage (`struct meshlet_gpu_data<NV, NI>`). The arrays `mVertices[NV]`
and `mIndices[NI]` are lists; the functions below keep them at length `NV` and `NI`. -/
structure meshlet_gpu_data where
  /-- Vertex indices into the vertex array (`uint32_t[NV]`). -/
  mVertices : List Nat
  /-- Indices into the vertex indices (`uint8_t[NI]`). -/
  mIndices : List Nat
  /-- The vertex count (`uint8_t`). -/
  mVertexCount : Nat
  /-- The primitive count (`uint8_t`). -/
  mPrimitiveCount : Nat
deriving DecidableEq

/-- A value-initialised `meshlet_gpu_data<NV, NI>`, as created by `emplace_back()` and by
`resize`: all members zero. -/
def meshlet_gpu_data.zero (NV NI : Nat) : meshlet_gpu_data :=
  { mVertices := List.replicate NV 0, mIndices := List.replicate NI 0,
    mVertexCount := 0, mPrimitiveCount := 0 }

/-- The four bytes of a `uint32_t` in memory order on a little-endian host. -/
def word_bytes (w : Nat) : List Nat :=
  [w % 256, w / 256 % 256, w / 65536 % 256, w / 16777216 % 256]

/-- The bytes of a `uint32_t` array in memory order. -/
def words_to_bytes : List Nat → List Nat
  | [] => []
  | w :: ws => word_bytes w ++ words_to_bytes ws

/-- The `uint32_t` array held by a sequence of bytes (whole words only). -/
def bytes_to_words : List Nat → List Nat
  | b0 :: b1 :: b2 :: b3 :: rest =>
    (b0 + 256 * b1 + 65536 * b2 + 16777216 * b3) :: bytes_to_words rest
  | _ => []

/-- The call `std::ranges::copy(aSource, aArray)` for a zeroed array of `aSize` elements,
when `aSource` has at most `aSize` elements: they are written from slot 0 on, the remaining
slots keep their zero. The source performs no bounds check: a longer `aSource` is written
past the array (`none` here, see `overrun_record`). -/
def copy_into_array (aSource : List Nat) (aSize : Nat) : Option (List Nat) :=
  if aSource.length ≤ aSize then
    some (aSource ++ List.replicate (aSize - aSource.length) 0)
  else
    none

/-- The value `sizeof(meshlet_gpu_data<NV, NI>)`: the two arrays and the two counts, padded
to the alignment of `uint32_t`. -/
def record_size (NV NI : Nat) : Nat :=
  (4 * NV + NI + 2 + 3) / 4 * 4

/-- The bytes of a `meshlet_gpu_data<NV, NI>` in memory order: `mVertices` from offset 0,
`mIndices` from offset `4 * NV`, `mVertexCount` at `4 * NV + NI`, `mPrimitiveCount` at
`4 * NV + NI + 1`, then padding. -/
def record_image (NV NI : Nat) (r : meshlet_gpu_data) : List Nat :=
  words_to_bytes r.mVertices ++ r.mIndices ++ [r.mVertexCount, r.mPrimitiveCount] ++
    List.replicate (record_size NV NI - (4 * NV + NI + 2)) 0

/-- The `meshlet_gpu_data<NV, NI>` held by the bytes of a record. -/
def image_record (NV NI : Nat) (aImage : List Nat) : meshlet_gpu_data :=
  { mVertices := bytes_to_words (aImage.take (4 * NV)),
    mIndices := (aImage.drop (4 * NV)).take NI,
    mVertexCount := aImage.getD (4 * NV + NI) 0,
    mPrimitiveCount := aImage.getD (4 * NV + NI + 1) 0 }

/-- Writing `aBytes` into the bytes of a record from `aOffset` on. A write that ends inside
the record replaces the bytes it covers, whichever members they belong to. A write that
leaves the record reaches memory that is not the record's: what follows is undefined. -/
def write_image (aImage : List Nat) (aOffset : Nat) (aBytes : List Nat) :
    Except failure (List Nat) :=
  if aOffset + aBytes.length ≤ aImage.length then
    .ok (aImage.take aOffset ++ aBytes ++ aImage.drop (aOffset + aBytes.length))
  else
    .error failure.out_of_bounds

/-- The record that one iteration of the fixed-layout loop leaves behind when a list is
longer than its array: after the two counts have been assigned, `std::ranges::copy` writes
all of `meshlet.mVertices` from the start of `ml.mVertices` on, and then all of
`meshlet.mIndices` from the start of `ml.mIndices` on, over whatever members follow. -/
def overrun_record (NV NI : Nat) (m : meshlet) : Except failure meshlet_gpu_data :=
  let start := record_image NV NI
    { mVertices := List.replicate NV 0, mIndices := List.replicate NI 0,
      mVertexCount := m.mVertexCount % 256, mPrimitiveCount := m.mIndexCount / 3 % 256 }
  match write_image start 0 (words_to_bytes m.mVertices) with
  | .error e => .error e
  | .ok image1 =>
    match write_image image1 (4 * NV) (m.mIndices.map (fun b => b % 256)) with
    | .error e => .error e
    | .ok image2 => .ok (image_record NV NI image2)

/-- One iteration of the loop of `convert_for_gpu_usage` in the branch taken for
`T = meshlet_gpu_data<NV, NI>`. -/
def fixed_entry (NV NI : Nat) (gpuMeshlets : List meshlet_gpu_data) (m : meshlet) :
    Except failure (List meshlet_gpu_data) :=
  match copy_into_array m.mVertices NV, copy_into_array m.mIndices NI with
  | some vs, some is =>
    .ok (gpuMeshlets ++
      [{ mVertices := vs, mIndices := is,
         mVertexCount := m.mVertexCount % 256,
         mPrimitiveCount := m.mIndexCount / 3 % 256 }])
  | _, _ =>
    match overrun_record NV NI m with
    | .error e => .error e
    | .ok ml => .ok (gpuMeshlets ++ [ml])

/-- The record that one iteration of the fixed-layout loop appends when both copies stay
inside the arrays: the lists followed by the untouched zero slots, and the narrowed counts. -/
def fixed_record (NV NI : Nat) (m : meshlet) : meshlet_gpu_data :=
  { mVertices := m.mVertices ++ List.replicate (NV - m.mVertices.length) 0,
    mIndices := m.mIndices ++ List.replicate (NI - m.mIndices.length) 0,
    mVertexCount := m.mVertexCount % 256,
    mPrimitiveCount := m.mIndexCount / 3 % 256 }

/-- The loop `for (auto& meshlet : aMeshlets)` of the fixed-layout branch. -/
def fixed_loop (NV NI : Nat) :
    List meshlet → List meshlet_gpu_data → Except failure (List meshlet_gpu_data)
  | [], gpuMeshlets => .ok gpuMeshlets
  | m :: rest, gpuMeshlets =>
    match fixed_entry NV NI gpuMeshlets m with
    | .error e => .error e
    | .ok next => fixed_loop NV NI rest next

/-- The function `convert_for_gpu_usage<meshlet_gpu_data<NV, NI>, NV, NI>`: the pool
`vertexIndices` is never given a value in this branch. -/
def convert_for_gpu_usage_fixed (NV NI : Nat) (aMeshlets : List meshlet) :
    Except failure (List meshlet_gpu_data × Option (List Nat)) :=
  match fixed_loop NV NI aMeshlets [] with
  | .error e => .error e
  | .ok gpuMeshlets => .ok (gpuMeshlets, none)

/-! ## Serializer -/

/-- Modelled from the spec: the enumeration `serializer::mode` of the external serializer,
which is either writing (`serialize`) or reading (`deserialize`). -/
inductive serializer.mode where
  | serialize
  | deserialize
deriving DecidableEq

/-- Modelled from the spec: the class `gvk::serializer`, an external collaborator that
exposes a current mode and an `archive(value)` operation that either writes `value` or
overwrites it by reading, in order. The stream holds one entry per archived scalar and one
entry per byte of archived binary data: in serialize mode what has been written so far, in
deserialize mode what is still to be read. -/
structure serializer where
  /-- The current mode. -/
  mMode : serializer.mode
  /-- The data written so far, or still to be read. -/
  mStream : List Nat
deriving DecidableEq

/-- Modelled from the spec: `archive(value)` for one scalar. Writing appends the value and
leaves it unchanged; reading takes the next entry of the stream. -/
def serializer.archive_value (s : serializer) (v : Nat) : Except failure (Nat × serializer) :=
  match s.mMode with
  | .serialize => .ok (v, { s with mStream := s.mStream ++ [v] })
  | .deserialize =>
    match s.mStream with
    | [] => .error failure.stream_exhausted
    | x :: rest => .ok (x, { s with mStream := rest })

/-- Modelled from the spec: `archive(binary_data(ptr, size))` for the `size` bytes found at
`ptr`. Writing appends them; reading replaces them by the next `size` entries. -/
def serializer.archive_binary_data (s : serializer) (aBytes : List Nat) :
    Except failure (List Nat × serializer) :=
  match s.mMode with
  | .serialize => .ok (aBytes, { s with mStream := s.mStream ++ aBytes })
  | .deserialize =>
    if aBytes.length ≤ s.mStream.length then
      .ok (s.mStream.take aBytes.length, { s with mStream := s.mStream.drop aBytes.length })
    else
      .error failure.stream_exhausted

/-- Modelled from the spec: archiving the elements of a vector one after the other through
the element's `serialize` function. -/
def serializer.archive_elements {α : Type}
    (aSerialize : serializer → α → Except failure (α × serializer)) :
    serializer → List α → Except failure (List α × serializer)
  | s, [] => .ok ([], s)
  | s, x :: xs =>
    match aSerialize s x with
    | .error e => .error e
    | .ok (y, s1) =>
      match serializer.archive_elements aSerialize s1 xs with
      | .error e => .error e
      | .ok (ys, s2) => .ok (y :: ys, s2)

/-- The call `vector.resize(n)`: shrinks, or grows with value-initialised elements. -/
def resize {α : Type} (aVector : List α) (n : Nat) (aZero : α) : List α :=
  aVector.take n ++ List.replicate (n - aVector.length) aZero

/-- Modelled from the spec: `archive(value)` for a `std::vector`. The size is archived
first (written, or read and the vector resized to it), then every element in order. -/
def serializer.archive_vector {α : Type}
    (aSerialize : serializer → α → Except failure (α × serializer)) (aZero : α)
    (s : serializer) (aVector : List α) : Except failure (List α × serializer) :=
  match s.archive_value aVector.length with
  | .error e => .error e
  | .ok (n, s1) => serializer.archive_elements aSerialize s1 (resize aVector n aZero)

/-- Modelled from the spec: `archive(value)` for one element of a `std::vector<uint32_t>`. -/
def serialize_word (s : serializer) (w : Nat) : Except failure (Nat × serializer) :=
  s.archive_value w

/-- Modelled from the spec: `archive(value)` for the `std::optional<std::vector<uint32_t>>`
pool. Whether a value is present is archived first, then the value if there is one. -/
def serializer.archive_pool (s : serializer) (aPool : Option (List Nat)) :
    Except failure (Option (List Nat) × serializer) :=
  match s.mMode with
  | .serialize =>
    match aPool with
    | none =>
      match s.archive_value 0 with
      | .error e => .error e
      | .ok (_, s1) => .ok (none, s1)
    | some pool =>
      match s.archive_value 1 with
      | .error e => .error e
      | .ok (_, s1) =>
        match serializer.archive_vector serialize_word 0 s1 pool with
        | .error e => .error e
        | .ok (pool1, s2) => .ok (some pool1, s2)
  | .deserialize =>
    match s.archive_value 0 with
    | .error e => .error e
    | .ok (present, s1) =>
      if present = 0 then .ok (none, s1)
      else
        match serializer.archive_vector serialize_word 0 s1 [] with
        | .error e => .error e
        | .ok (pool1, s2) => .ok (some pool1, s2)

/-- Serialization/deserialization method for `meshlet_gpu_data<NV, NI>`
(`serialize(Archive&, meshlet_gpu_data<NV, NI>&)`). Both `binary_data` ranges start at
`aValue.mVertices`: the first has `sizeof(mVertices) = 4 * NV` bytes, the second has
`sizeof(mIndices) = NI` bytes. The member `mIndices` directly follows `mVertices` in the
struct, so the second range covers the first `NI` bytes of `mVertices` followed by
`mIndices`. With an output archive the value is only read. -/
def serialize_meshlet_gpu_data (NV NI : Nat) (s : serializer) (aValue : meshlet_gpu_data) :
    Except failure (meshlet_gpu_data × serializer) :=
  match s.archive_binary_data (words_to_bytes aValue.mVertices) with
  | .error e => .error e
  | .ok (vertexBytes, s1) =>
    let image := vertexBytes ++ aValue.mIndices
    match s1.archive_binary_data (image.take NI) with
    | .error e => .error e
    | .ok (firstBytes, s2) =>
      let image2 := firstBytes ++ image.drop NI
      match s2.archive_value aValue.mVertexCount with
      | .error e => .error e
      | .ok (vertexCount, s3) =>
        match s3.archive_value aValue.mPrimitiveCount with
        | .error e => .error e
        | .ok (primitiveCount, s4) =>
          match s.mMode with
          | .serialize => .ok (aValue, s4)
          | .deserialize =>
            .ok ({ mVertices := bytes_to_words (image2.take (4 * NV)),
                   mIndices := image2.drop (4 * NV),
                   mVertexCount := vertexCount,
                   mPrimitiveCount := primitiveCount }, s4)

/-- Serialization/deserialization method for `meshlet_redirected_gpu_data`
(`serialize(Archive&, meshlet_redirected_gpu_data&)`). -/
def serialize_meshlet_redirected_gpu_data (s : serializer)
    (aValue : meshlet_redirected_gpu_data) :
    Except failure (meshlet_redirected_gpu_data × serializer) :=
  match s.archive_value aValue.mDataOffset with
  | .error e => .error e
  | .ok (dataOffset, s1) =>
    match s1.archive_value aValue.mVertexCount with
    | .error e => .error e
    | .ok (vertexCount, s2) =>
      match s2.archive_value aValue.mPrimitiveCount with
      | .error e => .error e
      | .ok (primitiveCount, s3) =>
        .ok ({ mDataOffset := dataOffset, mVertexCount := vertexCount,
               mPrimitiveCount := primitiveCount }, s3)

/-- The stream entries that archiving the elements of a vector in serialize mode appends,
given the entries `aEntries` of one element. -/
def written {α : Type} (aEntries : α → List Nat) : List α → List Nat
  | [] => []
  | x :: xs => aEntries x ++ written aEntries xs

/-- The stream entries of one `meshlet_redirected_gpu_data`. -/
def redirected_gpu_data_entries (r : meshlet_redirected_gpu_data) : List Nat :=
  [r.mDataOffset, r.mVertexCount, r.mPrimitiveCount]

/-- The stream entries of one `meshlet_gpu_data<NV, NI>`. -/
def gpu_data_entries (NI : Nat) (r : meshlet_gpu_data) : List Nat :=
  words_to_bytes r.mVertices ++ (words_to_bytes r.mVertices ++ r.mIndices).take NI ++
    [r.mVertexCount, r.mPrimitiveCount]

/-- The stream entries of the optional pool. -/
def pool_entries : Option (List Nat) → List Nat
  | none => [0]
  | some pool => 1 :: pool.length :: pool

/-! ## Cache adapter -/

/-- The function `convert_for_gpu_usage_cached<meshlet_gpu_data<NV, NI>, NV, NI>`. -/
def convert_for_gpu_usage_cached_fixed (NV NI : Nat) (aSerializer : serializer)
    (aMeshlets : List meshlet) :
    Except failure ((List meshlet_gpu_data × Option (List Nat)) × serializer) :=
  let computed : Except failure (List meshlet_gpu_data × Option (List Nat)) :=
    match aSerializer.mMode with
    | .serialize => convert_for_gpu_usage_fixed NV NI aMeshlets
    | .deserialize => .ok ([], none)
  match computed with
  | .error e => .error e
  | .ok (resultMeshlets, resultMeshletsData) =>
    match serializer.archive_vector (serialize_meshlet_gpu_data NV NI)
        (meshlet_gpu_data.zero NV NI) aSerializer resultMeshlets with
    | .error e => .error e
    | .ok (resultMeshlets1, s1) => .ok ((resultMeshlets1, resultMeshletsData), s1)

/-- The function `convert_for_gpu_usage_cached<meshlet_redirected_gpu_data, NV, NI>`. -/
def convert_for_gpu_usage_cached_redirected (aHeap : Nat → Nat → Nat)
    (aSerializer : serializer) (aMeshlets : List meshlet) :
    Except failure ((List meshlet_redirected_gpu_data × Option (List Nat)) × serializer) :=
  let computed : List meshlet_redirected_gpu_data × Option (List Nat) :=
    match aSerializer.mMode with
    | .serialize => convert_for_gpu_usage_redirected aHeap aMeshlets
    | .deserialize => ([], none)
  match serializer.archive_vector serialize_meshlet_redirected_gpu_data ⟨0, 0, 0⟩
      aSerializer computed.1 with
  | .error e => .error e
  | .ok (resultMeshlets1, s1) =>
    match s1.archive_pool computed.2 with
    | .error e => .error e
    | .ok (resultMeshletsData1, s2) => .ok ((resultMeshlets1, resultMeshletsData1), s2)

/-! ## Partitioner -/

/-- The type `model_t` behind a `gvk::model`, known by its identity only. -/
abbrev model_t := Nat

/-- The call `aModel.enable_shared_ownership()`. -/
def model.enable_shared_ownership (aModel : model) : model :=
  { aModel with mSharedOwnership := true }

/-- The call `aModel.get()`. -/
def model.get (aModel : model) : model_t :=
  aModel.mModelData

/-- The callback `aMeshletDivision` of type `F`, by the shape the source tests for with
`std::is_assignable_v`. `V` stands for `glm::vec3`. -/
inductive meshlet_division (V : Type) where
  /-- A callable taking `(tIndices, tModel, tMeshIndex, tMaxVertices, tMaxIndices)`. -/
  | indices_only
      (f : List Nat → model_t → Option mesh_index_t → Nat → Nat → List meshlet)
  /-- A callable taking `(tVertices, tIndices, tModel, tMeshIndex, tMaxVertices,
  tMaxIndices)`. -/
  | vertices_and_indices
      (f : List V → List Nat → model_t → Option mesh_index_t → Nat → Nat → List meshlet)
  /-- A callable of neither shape. -/
  | incompatible

/-- The function `divide_indexed_geometry_into_meshlets`. -/
def divide_indexed_geometry_into_meshlets {V : Type} (aVertices : List V)
    (aIndices : List Nat) (aModel : model) (aMeshIndex : Option mesh_index_t)
    (aMaxVertices aMaxIndices : Nat) (aMeshletDivision : meshlet_division V) :
    Except failure (List meshlet) :=
  let aModel1 := aModel.enable_shared_ownership
  let generated : Except failure (List meshlet) :=
    match aMeshletDivision with
    | .indices_only f =>
      .ok (f aIndices aModel1.get aMeshIndex aMaxVertices aMaxIndices)
    | .vertices_and_indices f =>
      .ok (f aVertices aIndices aModel1.get aMeshIndex aMaxVertices aMaxIndices)
    | .incompatible => .error failure.logic_error
  match generated with
  | .error e => .error e
  | .ok generatedMeshlets =>
    .ok (generatedMeshlets.map (fun meshlet => { meshlet with mModel := aModel1 }))

/-! ## Packer and cache adapter for an unsupported record type -/

/-- One iteration of the loop of `convert_for_gpu_usage` in the branch taken when `T` is
convertible neither to `meshlet_gpu_data<NV, NI>` nor to `meshlet_redirected_gpu_data`:
after `emplace_back`, `assert(false)` (compiled out under `NDEBUG`) and then
`throw avk::logic_error`. -/
def unsupported_entry {T : Type} (_gpuMeshlets : List T) (_m : meshlet) :
    Except failure (List T) :=
  .error failure.logic_error

/-- The loop `for (auto& meshlet : aMeshlets)` for an unsupported record type. -/
def unsupported_loop {T : Type} : List meshlet → List T → Except failure (List T)
  | [], gpuMeshlets => .ok gpuMeshlets
  | m :: rest, gpuMeshlets =>
    match unsupported_entry gpuMeshlets m with
    | .error e => .error e
    | .ok next => unsupported_loop rest next

/-- The function `convert_for_gpu_usage<T, NV, NI>` for an unsupported record type `T`. -/
def convert_for_gpu_usage_unsupported {T : Type} (aMeshlets : List meshlet) :
    Except failure (List T × Option (List Nat)) :=
  match unsupported_loop aMeshlets [] with
  | .error e => .error e
  | .ok gpuMeshlets => .ok (gpuMeshlets, none)

/-- The function `convert_for_gpu_usage_cached<T, NV, NI>` for an unsupported record type
`T`: after the optional call of `convert_for_gpu_usage`, the last branch throws. -/
def convert_for_gpu_usage_cached_unsupported {T : Type} (aSerializer : serializer)
    (aMeshlets : List meshlet) :
    Except failure ((List T × Option (List Nat)) × serializer) :=
  let computed : Except failure (List T × Option (List Nat)) :=
    match aSerializer.mMode with
    | .serialize => convert_for_gpu_usage_unsupported aMeshlets
    | .deserialize => .ok ([], none)
  match computed with
  | .error e => .error e
  | .ok _ => .error failure.logic_error

/-! ## Dividing models into meshlets -/

/-- Modelled from the spec: the Geometry Accessor, whose functions are not part of the
source file. `get_vertices_and_indices` stands for
`get_vertices_and_indices(make_model_references_and_mesh_indices_selection(model,
meshIndices))`, the combined vertex and index buffers of the selected meshes; the other two
are the per-mesh accessors of `model_t`. -/
structure geometry_accessor (V : Type) where
  /-- Combined vertices and rebased indices of the selected meshes of a model. -/
  get_vertices_and_indices : model_t → List mesh_index_t → List V × List Nat
  /-- The call `model.get().positions_for_mesh(meshIndex)`. -/
  positions_for_mesh : model_t → mesh_index_t → List V
  /-- The call `model.get().indices_for_mesh<uint32_t>(meshIndex)`. -/
  indices_for_mesh : model_t → mesh_index_t → List Nat

/-- The loop `for (const auto meshIndex : meshIndices)` of `divide_into_meshlets`. The first
argument is the caller's `model` handle: `some` while it holds a model, `none` once it holds
none. Every iteration passes `std::move(model)` to `divide_indexed_geometry_into_meshlets`;
`aMovedFrom` is the state in which the move constructor of `gvk::model` leaves the handle
that was moved from. The callable `aMeshletDivision` is moved as well; it is taken to be
unaffected by being moved (a lambda or function pointer; a `std::function`, which a move
leaves empty, is outside this model). -/
def divide_meshes {V : Type} (aAccessor : geometry_accessor V)
    (aMovedFrom : model → Option model) (aMeshletDivision : meshlet_division V)
    (aMaxVertices aMaxIndices : Nat) :
    Option model → List mesh_index_t → List meshlet → Except failure (List meshlet)
  | _, [], meshlets => .ok meshlets
  | none, _ :: _, _ => .error failure.empty_model
  | some model, meshIndex :: rest, meshlets =>
    let vertices := aAccessor.positions_for_mesh model.get meshIndex
    let indices := aAccessor.indices_for_mesh model.get meshIndex
    match divide_indexed_geometry_into_meshlets vertices indices model (some meshIndex)
        aMaxVertices aMaxIndices aMeshletDivision with
    | .error e => .error e
    | .ok tmpMeshlets =>
      divide_meshes aAccessor aMovedFrom aMeshletDivision aMaxVertices aMaxIndices
        (aMovedFrom model) rest (meshlets ++ tmpMeshlets)

/-- The loop `for (auto& pair : aModelsAndMeshletIndices)` of `divide_into_meshlets`. Every
iteration passes `std::move(aMeshletDivision)` on; as in `divide_meshes`, the callable is
taken to be unaffected by being moved (a lambda or function pointer; a `std::function`,
which a move leaves empty, is outside this model). -/
def divide_pairs {V : Type} (aAccessor : geometry_accessor V)
    (aMovedFrom : model → Option model) (aMeshletDivision : meshlet_division V)
    (aCombineSubmeshes : Bool) (aMaxVertices aMaxIndices : Nat) :
    List (model × List mesh_index_t) → List meshlet → Except failure (List meshlet)
  | [], meshlets => .ok meshlets
  | (model, meshIndices) :: rest, meshlets =>
    if aCombineSubmeshes then
      let combined := aAccessor.get_vertices_and_indices model.get meshIndices
      match divide_indexed_geometry_into_meshlets combined.1 combined.2 model none
          aMaxVertices aMaxIndices aMeshletDivision with
      | .error e => .error e
      | .ok tmpMeshlets =>
        divide_pairs aAccessor aMovedFrom aMeshletDivision aCombineSubmeshes aMaxVertices
          aMaxIndices rest (meshlets ++ tmpMeshlets)
    else
      match divide_meshes aAccessor aMovedFrom aMeshletDivision aMaxVertices aMaxIndices
          (some model) meshIndices meshlets with
      | .error e => .error e
      | .ok meshlets1 =>
        divide_pairs aAccessor aMovedFrom aMeshletDivision aCombineSubmeshes aMaxVertices
          aMaxIndices rest meshlets1

/-- The function `divide_into_meshlets` (overload with a callback `F aMeshletDivision`). -/
def divide_into_meshlets {V : Type} (aAccessor : geometry_accessor V)
    (aMovedFrom : model → Option model)
    (aModelsAndMeshletIndices : List (model × List mesh_index_t))
    (aMeshletDivision : meshlet_division V) (aCombineSubmeshes : Bool)
    (aMaxVertices aMaxIndices : Nat) : Except failure (List meshlet) :=
  divide_pairs aAccessor aMovedFrom aMeshletDivision aCombineSubmeshes aMaxVertices
    aMaxIndices aModelsAndMeshletIndices []

/-! ## Default divider -/

/-- Modelled from the spec: the position of vertex index `v` in the vertex list of the open
meshlet, or the length of the list if `v` is not in it (vertex dedup scoped to the open
meshlet). The body of `basic_meshlets_divider` is not part of the source file. -/
def vertex_position (v : Nat) : List Nat → Nat
  | [] => 0
  | w :: ws => if w = v then 0 else vertex_position v ws + 1

/-- Modelled from the spec: the vertex list of the open meshlet after vertex index `v` has
been used: unchanged if `v` is in it, else with `v` appended. -/
def use_vertex (aVertices : List Nat) (v : Nat) : List Nat :=
  if vertex_position v aVertices < aVertices.length then aVertices else aVertices ++ [v]

/-- Modelled from the spec: appending the triangle `(a, b, c)` to the open meshlet, given as
its vertex list and its local-index list. A local index is the position of the vertex in the
vertex list, stored into the `uint8_t` vector `mIndices`. -/
def append_triangle (aOpen : List Nat × List Nat) (a b c : Nat) : List Nat × List Nat :=
  let v1 := use_vertex aOpen.1 a
  let v2 := use_vertex v1 b
  let v3 := use_vertex v2 c
  (v3, aOpen.2 ++
    [vertex_position a v3 % 256, vertex_position b v3 % 256, vertex_position c v3 % 256])

/-- A default-constructed `gvk::model` handle: the divider must not take ownership of the
model, the handle is assigned by `divide_indexed_geometry_into_meshlets` afterwards. -/
def model.unassigned : model :=
  { mModelData := 0, mSharedOwnership := false }

/-- Modelled from the spec: closing the open meshlet: its lists become `mVertices` and
`mIndices`, their lengths the two counts. -/
def close_meshlet (aMeshIndex : Option mesh_index_t) (aOpen : List Nat × List Nat) : meshlet :=
  { mModel := model.unassigned, mMeshIndex := aMeshIndex,
    mVertices := aOpen.1, mIndices := aOpen.2,
    mVertexCount := aOpen.1.length, mIndexCount := aOpen.2.length }

/-- Modelled from the spec: emitting the open meshlet, if it holds a triangle. -/
def emit_open (aMeshIndex : Option mesh_index_t) (aOpen : List Nat × List Nat)
    (result : List meshlet) : List meshlet :=
  if aOpen.2.length = 0 then result else result ++ [close_meshlet aMeshIndex aOpen]

/-- Modelled from the spec: the walk of the default divider over the index stream, one
triangle at a time, with one meshlet open. The open meshlet is closed and emitted whenever
appending the next triangle would exceed `aMaxVertices` unique vertices or `aMaxIndices`
indices; the triangle then opens the next meshlet. At the end of the stream the open meshlet
is emitted. -/
def divider_walk (aMeshIndex : Option mesh_index_t) (aMaxVertices aMaxIndices : Nat) :
    List Nat → List Nat × List Nat → List meshlet → List meshlet
  | a :: b :: c :: rest, aOpen, result =>
    if aMaxVertices < (append_triangle aOpen a b c).1.length ∨
        aMaxIndices < (append_triangle aOpen a b c).2.length then
      divider_walk aMeshIndex aMaxVertices aMaxIndices rest
        (append_triangle ([], []) a b c) (emit_open aMeshIndex aOpen result)
    else
      divider_walk aMeshIndex aMaxVertices aMaxIndices rest
        (append_triangle aOpen a b c) result
  | _, aOpen, result => emit_open aMeshIndex aOpen result

/-- Modelled from the spec: the function `basic_meshlets_divider`, the default strategy of
the partitioner, of which the source file holds the declaration only: a greedy streaming
bin-packer over the triangles of the index stream with one meshlet open at a time. -/
def basic_meshlets_divider (aIndices : List Nat) (_aModel : model_t)
    (aMeshIndex : Option mesh_index_t) (aMaxVertices aMaxIndices : Nat) : List meshlet :=
  divider_walk aMeshIndex aMaxVertices aMaxIndices aIndices ([], []) []

/-- The original vertex indices that the first `mIndexCount` local indices of a meshlet
stand for: `mVertices[mIndices[j]]` for `j < mIndexCount`. -/
def resolve (m : meshlet) : List (Option Nat) :=
  (m.mIndices.take m.mIndexCount).map (fun j => m.mVertices[j]?)

/-- The resolved local indices of a meshlet sequence, concatenated in meshlet order. -/
def resolved_stream : List meshlet → List (Option Nat)
  | [] => []
  | m :: ms => resolve m ++ resolved_stream ms

/-- The local indices of the open meshlet resolved through its vertex list. -/
def resolve_open (aOpen : List Nat × List Nat) : List (Option Nat) :=
  aOpen.2.map (fun j => aOpen.1[j]?)

/-- What holds of the open meshlet during the walk of the default divider: it is within the
two bounds, holds whole triangles, has a vertex as soon as it has an index, and every local
index is a position of its vertex list. -/
def open_within (aMaxVertices aMaxIndices : Nat) (aOpen : List Nat × List Nat) : Prop :=
  aOpen.1.length ≤ aMaxVertices ∧ aOpen.2.length ≤ aMaxIndices ∧ aOpen.2.length % 3 = 0 ∧
    (0 < aOpen.2.length → 0 < aOpen.1.length) ∧ ∀ j ∈ aOpen.2, j < aOpen.1.length

/-- The capacity invariant of a meshlet for the bounds `aMaxVertices` and `aMaxIndices`. -/
def meshlet.within (aMaxVertices aMaxIndices : Nat) (m : meshlet) : Prop :=
  0 < m.mVertexCount ∧ m.mVertexCount ≤ aMaxVertices ∧
    0 < m.mIndexCount ∧ m.mIndexCount ≤ aMaxIndices ∧ m.mIndexCount % 3 = 0 ∧
    ∀ j ∈ m.mIndices.take m.mIndexCount, j < m.mVertexCount

/-! ## Example inputs -/

/-- A model handle used by the example meshlets. -/
def example_model : model :=
  { mModelData := 1, mSharedOwnership := true }

/-- A meshlet of two triangles over four vertices. -/
def quad_meshlet : meshlet :=
  { mModel := example_model, mMeshIndex := none,
    mVertices := [10, 11, 12, 13], mIndices := [0, 1, 2, 2, 1, 3, 0, 0],
    mVertexCount := 4, mIndexCount := 6 }

/-- A meshlet of one triangle. -/
def triangle_meshlet : meshlet :=
  { mModel := example_model, mMeshIndex := none,
    mVertices := [20, 21, 22], mIndices := [0, 1, 2],
    mVertexCount := 3, mIndexCount := 3 }

/-- A meshlet over one vertex whose index count is the largest `uint32_t`, a multiple of 3:
its local-index vector has `2 ^ 32 - 1` entries, all `0`. -/
def full_index_meshlet : meshlet :=
  { mModel := example_model, mMeshIndex := none,
    mVertices := [7], mIndices := List.replicate 4294967295 0,
    mVertexCount := 1, mIndexCount := 4294967295 }

/-- Host memory that holds `255` in every byte behind every local-index vector. -/
def example_heap : Nat → Nat → Nat :=
  fun _ _ => 255

/-- A meshlet over two vertices whose index count is the largest `uint32_t` and whose
local-index vector has `2 ^ 32` entries, all `1`. -/
def huge_index_meshlet : meshlet :=
  { mModel := example_model, mMeshIndex := none,
    mVertices := [7, 8], mIndices := List.replicate 4294967296 1,
    mVertexCount := 2, mIndexCount := 4294967295 }

/-- A meshlet of one triangle whose vertex vector has `2 ^ 32 - 1` entries, the vertex
indices `0, 1, 2, ...` in order. -/
def huge_vertex_meshlet : meshlet :=
  { mModel := example_model, mMeshIndex := none,
    mVertices := List.range 4294967295, mIndices := [0, 1, 2],
    mVertexCount := 4294967295, mIndexCount := 3 }

/-- A meshlet of one triangle that lists 256 vertices. -/
def wide_meshlet : meshlet :=
  { mModel := example_model, mMeshIndex := none,
    mVertices := List.range 256, mIndices := [0, 1, 2],
    mVertexCount := 256, mIndexCount := 3 }

/-- A meshlet over one vertex with 768 local indices, all `0`. -/
def long_meshlet : meshlet :=
  { mModel := example_model, mMeshIndex := none,
    mVertices := [0], mIndices := List.replicate 768 0,
    mVertexCount := 1, mIndexCount := 768 }

/-- A division callback that ignores its arguments and returns `triangle_meshlet`, whose
mesh index is absent and whose model is `example_model`. -/
def fixed_output_division : meshlet_division Unit :=
  .indices_only (fun _ _ _ _ _ => [triangle_meshlet])

/-- A model handle other than `example_model`, without shared ownership. -/
def other_model : model :=
  { mModelData := 7, mSharedOwnership := false }

/-- A meshlet of four triangles over four vertices: twelve local indices. -/
def twelve_index_meshlet : meshlet :=
  { mModel := example_model, mMeshIndex := none,
    mVertices := [20, 21, 22, 23], mIndices := [0, 1, 2, 2, 1, 3, 0, 2, 3, 0, 1, 3],
    mVertexCount := 4, mIndexCount := 12 }

/-- A geometry accessor without geometry: every mesh has no vertices and no indices. -/
def empty_accessor : geometry_accessor Unit :=
  { get_vertices_and_indices := fun _ _ => ([], []),
    positions_for_mesh := fun _ _ => [],
    indices_for_mesh := fun _ _ => [] }

/-- The move constructor of `avk::owning_resource`: the handle that was moved from holds no
model afterwards. -/
def reset_after_move : model → Option model :=
  fun _ => none

end gvk

namespace gvk

/-! ## Redirected packing: the layout of the pool -/

theorem redirected_entry_records (aHeap : Nat → Nat → Nat)
    (st : List meshlet_redirected_gpu_data × Option (List Nat)) (m : meshlet) :
    (redirected_entry aHeap st m).1 =
      st.1 ++ [{ mDataOffset := (pool_of st).length % 4294967296,
                 mVertexCount := m.mVertexCount % 256,
                 mPrimitiveCount := m.mIndexCount / 3 % 256 }] := rfl

theorem redirected_entry_pool (aHeap : Nat → Nat → Nat)
    (st : List meshlet_redirected_gpu_data × Option (List Nat)) (m : meshlet) :
    (redirected_entry aHeap st m).2 =
      some (pool_of st ++ m.mVertices ++ index_groups (aHeap st.1.length) m) := rfl

theorem redirected_fold_extends (aHeap : Nat → Nat → Nat) (ms : List meshlet) :
    ∀ st : List meshlet_redirected_gpu_data × Option (List Nat),
      ∃ rs ps, (ms.foldl (redirected_entry aHeap) st).1 = st.1 ++ rs ∧
        pool_of (ms.foldl (redirected_entry aHeap) st) = pool_of st ++ ps ∧
        rs.length = ms.length := by
  induction ms with
  | nil => intro st; exact ⟨[], [], by simp, by simp, rfl⟩
  | cons m rest ih =>
    intro st
    obtain ⟨rs, ps, h1, h2, h3⟩ := ih (redirected_entry aHeap st m)
    refine ⟨{ mDataOffset := (pool_of st).length % 4294967296,
              mVertexCount := m.mVertexCount % 256,
              mPrimitiveCount := m.mIndexCount / 3 % 256 } :: rs,
      m.mVertices ++ index_groups (aHeap st.1.length) m ++ ps, ?_, ?_, ?_⟩
    · rw [List.foldl_cons, h1, redirected_entry_records, List.append_assoc]
      rfl
    · rw [List.foldl_cons, h2]
      simp [pool_of, redirected_entry_pool, List.append_assoc]
    · simp [h3]

theorem redirected_state_split (aHeap : Nat → Nat → Nat) (ms : List meshlet) (i : Nat) :
    convert_for_gpu_usage_redirected aHeap ms =
      (ms.drop i).foldl (redirected_entry aHeap) (redirected_state aHeap ms i) := by
  unfold convert_for_gpu_usage_redirected redirected_state
  rw [← List.foldl_append, List.take_append_drop]

theorem redirected_state_records_length (aHeap : Nat → Nat → Nat) (ms : List meshlet)
    (i : Nat) (hi : i ≤ ms.length) : (redirected_state aHeap ms i).1.length = i := by
  obtain ⟨rs, ps, h1, _, h3⟩ := redirected_fold_extends aHeap (ms.take i) ([], none)
  unfold redirected_state
  rw [h1, List.nil_append, h3, List.length_take]
  omega

theorem redirected_state_succ (aHeap : Nat → Nat → Nat) (ms : List meshlet) (i : Nat)
    (m : meshlet) (hm : ms[i]? = some m) :
    redirected_state aHeap ms (i + 1) =
      redirected_entry aHeap (redirected_state aHeap ms i) m := by
  unfold redirected_state
  rw [List.take_succ, hm, List.foldl_append]
  rfl

theorem redirected_state_full (aHeap : Nat → Nat → Nat) (ms : List meshlet) :
    redirected_state aHeap ms ms.length = convert_for_gpu_usage_redirected aHeap ms := by
  unfold redirected_state convert_for_gpu_usage_redirected
  rw [List.take_length]

theorem redirected_fold_some (aHeap : Nat → Nat → Nat) (ms : List meshlet) :
    ∀ st : List meshlet_redirected_gpu_data × Option (List Nat),
      st.2 = some (pool_of st) →
      (ms.foldl (redirected_entry aHeap) st).2 =
        some (pool_of (ms.foldl (redirected_entry aHeap) st)) := by
  induction ms with
  | nil => intro st h; exact h
  | cons m rest ih =>
    intro st _
    rw [List.foldl_cons]
    exact ih _ rfl

theorem redirected_pool_some (aHeap : Nat → Nat → Nat) (ms : List meshlet)
    (hne : ms ≠ []) :
    (convert_for_gpu_usage_redirected aHeap ms).2 =
      some (pool_of (convert_for_gpu_usage_redirected aHeap ms)) := by
  cases ms with
  | nil => exact absurd rfl hne
  | cons m rest =>
    unfold convert_for_gpu_usage_redirected
    rw [List.foldl_cons]
    exact redirected_fold_some aHeap rest _ rfl

/-- The block of meshlet `i`: the records hold the record of meshlet `i` at position `i`, and
the pool holds, from the length the pool had before meshlet `i`, first its vertex list and
then its index groups. -/
theorem redirected_layout (aHeap : Nat → Nat → Nat) (ms : List meshlet) (i : Nat)
    (m : meshlet) (hm : ms[i]? = some m) :
    ∃ rs ps,
      (convert_for_gpu_usage_redirected aHeap ms).1 =
        (redirected_state aHeap ms i).1 ++
          { mDataOffset := (pool_of (redirected_state aHeap ms i)).length % 4294967296,
            mVertexCount := m.mVertexCount % 256,
            mPrimitiveCount := m.mIndexCount / 3 % 256 } :: rs ∧
      (convert_for_gpu_usage_redirected aHeap ms).2 =
        some (pool_of (redirected_state aHeap ms i) ++ m.mVertices ++
          index_groups (aHeap i) m ++ ps) ∧
      (redirected_state aHeap ms i).1.length = i := by
  have hi : i < ms.length := by
    rcases Nat.lt_or_ge i ms.length with h | h
    · exact h
    · rw [List.getElem?_eq_none h] at hm
      cases hm
  have hne : ms ≠ [] := by
    intro h
    rw [h] at hi
    exact Nat.not_lt_zero _ hi
  have hlen := redirected_state_records_length aHeap ms i (Nat.le_of_lt hi)
  obtain ⟨rs, ps, h1, h2, _⟩ :=
    redirected_fold_extends aHeap (ms.drop (i + 1)) (redirected_state aHeap ms (i + 1))
  rw [← redirected_state_split] at h1 h2
  rw [redirected_state_succ aHeap ms i m hm] at h1 h2
  refine ⟨rs, ps, ?_, ?_, hlen⟩
  · rw [h1, redirected_entry_records, List.append_assoc]
    rfl
  · rw [redirected_pool_some aHeap ms hne, h2]
    simp only [pool_of, redirected_entry_pool, Option.getD_some, hlen]

theorem redirected_record_at (aHeap : Nat → Nat → Nat) (ms : List meshlet) (i : Nat)
    (m : meshlet) (hm : ms[i]? = some m) :
    (convert_for_gpu_usage_redirected aHeap ms).1[i]? =
      some { mDataOffset := (pool_of (redirected_state aHeap ms i)).length % 4294967296,
             mVertexCount := m.mVertexCount % 256,
             mPrimitiveCount := m.mIndexCount / 3 % 256 } := by
  obtain ⟨rs, ps, h1, _, h3⟩ := redirected_layout aHeap ms i m hm
  rw [h1, List.getElem?_append_right (Nat.le_of_eq h3), h3, Nat.sub_self]
  simp

theorem redirected_records_length (aHeap : Nat → Nat → Nat) (ms : List meshlet) :
    (convert_for_gpu_usage_redirected aHeap ms).1.length = ms.length := by
  rw [← redirected_state_full]
  exact redirected_state_records_length aHeap ms ms.length (Nat.le_refl _)

theorem redirected_state_pool_succ (aHeap : Nat → Nat → Nat) (ms : List meshlet) (i : Nat)
    (m : meshlet) (hm : ms[i]? = some m) :
    pool_of (redirected_state aHeap ms (i + 1)) =
      pool_of (redirected_state aHeap ms i) ++ m.mVertices ++ index_groups (aHeap i) m := by
  have hi : i < ms.length := by
    rcases Nat.lt_or_ge i ms.length with h | h
    · exact h
    · rw [List.getElem?_eq_none h] at hm
      cases hm
  rw [redirected_state_succ aHeap ms i m hm]
  simp only [pool_of, redirected_entry_pool, Option.getD_some,
    redirected_state_records_length aHeap ms i (Nat.le_of_lt hi)]

theorem index_groups_length (aTrailing : Nat → Nat) (m : meshlet) :
    (index_groups aTrailing m).length = index_group_count m := by
  simp [index_groups]

theorem index_groups_nil (aTrailing : Nat → Nat) (m : meshlet)
    (h : index_group_count m = 0) : index_groups aTrailing m = [] := by
  unfold index_groups
  rw [h]
  rfl

theorem redirected_state_zero (aHeap : Nat → Nat → Nat) (ms : List meshlet) :
    pool_of (redirected_state aHeap ms 0) = [] := by
  simp [redirected_state, pool_of]

theorem index_group_count_eq (m : meshlet) (h : m.mIndexCount + 3 < 4294967296) :
    index_group_count m = (m.mIndexCount + 3) / 4 := by
  unfold index_group_count
  rw [Nat.mod_eq_of_lt h]

/-- The quotient `(n + 3) / 4` on natural numbers is the ceiling of `n / 4`. -/
theorem ceil_quarter (n : Nat) : 4 * ((n + 3) / 4) < n + 4 ∧ n ≤ 4 * ((n + 3) / 4) := by
  omega

/-- When the returned pool is shorter than `2 ^ 32` words, the block of every meshlet ends
below `2 ^ 32`. -/
theorem redirected_block_bound (aHeap : Nat → Nat → Nat) (ms : List meshlet)
    (hpool : ∀ pool, (convert_for_gpu_usage_redirected aHeap ms).2 = some pool →
      pool.length < 4294967296)
    (i : Nat) (m : meshlet) (hm : ms[i]? = some m) :
    (pool_of (redirected_state aHeap ms i)).length + m.mVertices.length +
      index_group_count m < 4294967296 := by
  obtain ⟨rs, ps, _, h2, _⟩ := redirected_layout aHeap ms i m hm
  have h := hpool _ h2
  simp only [List.length_append, index_groups_length] at h
  omega

/-! ## Redirected packing: offsets -/

/-- C1, as stated, fails: the meshlet sequence `[full_index_meshlet, triangle_meshlet]`
satisfies the claim's conditions (the vertex lists have length `vertexCount`, the returned
pool has five words), but the offset recorded for the second meshlet is `1`, not
`offset[0] + vertexCount[0] + ceil(indexCount[0] / 4) = 0 + 1 + 1073741824`: the source
computes the group count as `(mIndexCount + 3) / 4` in `uint32_t`, where `4294967295 + 3`
wraps to `2`, so no index word is appended for the first meshlet. -/
theorem C1_counterexample :
    (∀ m ∈ [full_index_meshlet, triangle_meshlet],
        m.in_range ∧ m.mVertices.length = m.mVertexCount ∧
          m.mIndices.length = m.mIndexCount) ∧
    (∀ pool,
        (convert_for_gpu_usage_redirected example_heap
          [full_index_meshlet, triangle_meshlet]).2 = some pool →
        pool.length < 4294967296) ∧
    ¬ (∃ r0 r1,
        (convert_for_gpu_usage_redirected example_heap
          [full_index_meshlet, triangle_meshlet]).1[0]? = some r0 ∧
        (convert_for_gpu_usage_redirected example_heap
          [full_index_meshlet, triangle_meshlet]).1[1]? = some r1 ∧
        r1.mDataOffset =
          r0.mDataOffset + full_index_meshlet.mVertexCount +
            (full_index_meshlet.mIndexCount + 3) / 4) := by
  have hverts : full_index_meshlet.mVertices = [7] := by
    simp only [full_index_meshlet]
  have hidx : full_index_meshlet.mIndices = List.replicate 4294967295 0 := by
    simp only [full_index_meshlet]
  have hcount : index_group_count full_index_meshlet = 0 := by decide
  have hcount1 : index_group_count triangle_meshlet = 1 := by decide
  have h0 : [full_index_meshlet, triangle_meshlet][0]? = some full_index_meshlet := rfl
  have h1 : [full_index_meshlet, triangle_meshlet][1]? = some triangle_meshlet := rfl
  have e1 : (pool_of (redirected_state example_heap
      [full_index_meshlet, triangle_meshlet] 1)).length = 1 := by
    rw [redirected_state_pool_succ example_heap _ 0 full_index_meshlet h0,
      redirected_state_zero, index_groups_nil _ _ hcount, hverts]
    rfl
  have e2 : (pool_of (convert_for_gpu_usage_redirected example_heap
      [full_index_meshlet, triangle_meshlet])).length = 5 := by
    rw [← redirected_state_full]
    have hs := redirected_state_pool_succ example_heap
      [full_index_meshlet, triangle_meshlet] 1 triangle_meshlet h1
    have hl : [full_index_meshlet, triangle_meshlet].length = 1 + 1 := rfl
    rw [hl, hs, List.length_append, List.length_append, e1, index_groups_length, hcount1]
    rfl
  refine ⟨?_, ?_, ?_⟩
  · intro m hm
    simp only [List.mem_cons, List.mem_singleton, List.not_mem_nil, or_false] at hm
    rcases hm with rfl | rfl
    · refine ⟨⟨by decide, by decide, ?_, ?_⟩, ?_, ?_⟩
      · intro v hv
        rw [hverts, List.mem_singleton] at hv
        omega
      · intro b hb
        rw [hidx] at hb
        rw [List.eq_of_mem_replicate hb]
        decide
      · rw [hverts]
        rfl
      · rw [hidx, List.length_replicate]
        rfl
    · decide
  · intro pool hp
    rw [redirected_pool_some example_heap _ (by simp)] at hp
    rw [← Option.some.inj hp, e2]
    decide
  · rintro ⟨r0, r1, hr0, hr1, h⟩
    rw [redirected_record_at example_heap _ 0 full_index_meshlet h0,
      redirected_state_zero] at hr0
    rw [redirected_record_at example_heap _ 1 triangle_meshlet h1, e1] at hr1
    rw [← Option.some.inj hr0, ← Option.some.inj hr1] at h
    revert h
    decide

/-- C1 (amended): redirected packing records prefix sums. For every meshlet sequence in which
each meshlet's vertex list has length `vertexCount`, each `indexCount` is at most
`2 ^ 32 - 4` (so that the 32-bit sum `indexCount + 3` does not wrap) and whose pool stays
below `2 ^ 32` words: `offset[0] = 0`,
`offset[i+1] = offset[i] + vertexCount[i] + ceil(indexCount[i] / 4)` for every `i + 1 < n`,
and the returned pool has length `offset[n-1] + vertexCount[n-1] + ceil(indexCount[n-1] / 4)`.
The ceiling is written `(indexCount + 3) / 4` on unbounded naturals (see `ceil_quarter`). -/
theorem C1_redirected_offsets_are_prefix_sums (aHeap : Nat → Nat → Nat) (ms : List meshlet)
    (hlen : ∀ m ∈ ms, m.mVertices.length = m.mVertexCount)
    (hidx : ∀ m ∈ ms, m.mIndexCount + 3 < 4294967296)
    (hpool : ∀ pool, (convert_for_gpu_usage_redirected aHeap ms).2 = some pool →
      pool.length < 4294967296) :
    (∀ m, ms[0]? = some m →
      ∃ r, (convert_for_gpu_usage_redirected aHeap ms).1[0]? = some r ∧ r.mDataOffset = 0) ∧
    (∀ i m, ms[i]? = some m → i + 1 < ms.length →
      ∃ r r1, (convert_for_gpu_usage_redirected aHeap ms).1[i]? = some r ∧
        (convert_for_gpu_usage_redirected aHeap ms).1[i + 1]? = some r1 ∧
        r1.mDataOffset = r.mDataOffset + m.mVertexCount + (m.mIndexCount + 3) / 4) ∧
    (∀ m, ms[ms.length - 1]? = some m →
      ∃ r pool, (convert_for_gpu_usage_redirected aHeap ms).1[ms.length - 1]? = some r ∧
        (convert_for_gpu_usage_redirected aHeap ms).2 = some pool ∧
        pool.length = r.mDataOffset + m.mVertexCount + (m.mIndexCount + 3) / 4) := by
  refine ⟨?_, ?_, ?_⟩
  · intro m hm
    refine ⟨_, redirected_record_at aHeap ms 0 m hm, ?_⟩
    simp [redirected_state, pool_of]
  · intro i m hm hi
    have hmem : m ∈ ms := List.getElem?_mem hm
    obtain ⟨m1, hm1⟩ : ∃ m1, ms[i + 1]? = some m1 :=
      ⟨ms[i + 1], List.getElem?_eq_getElem hi⟩
    refine ⟨_, _, redirected_record_at aHeap ms i m hm,
      redirected_record_at aHeap ms (i + 1) m1 hm1, ?_⟩
    have hb := redirected_block_bound aHeap ms hpool i m hm
    have hb1 := redirected_block_bound aHeap ms hpool (i + 1) m1 hm1
    have hs := congrArg List.length (redirected_state_pool_succ aHeap ms i m hm)
    simp only [List.length_append, index_groups_length] at hs
    rw [index_group_count_eq m (hidx m hmem)] at hs hb
    have hv := hlen m hmem
    simp only
    rw [Nat.mod_eq_of_lt (by omega), Nat.mod_eq_of_lt (by omega)]
    omega
  · intro m hm
    have hmem : m ∈ ms := List.getElem?_mem hm
    have hpos : 0 < ms.length := by
      rcases Nat.eq_zero_or_pos ms.length with h | h
      · rw [List.length_eq_zero.mp h] at hm
        cases hm
      · exact h
    have hne : ms ≠ [] := List.ne_nil_of_length_pos hpos
    refine ⟨_, _, redirected_record_at aHeap ms (ms.length - 1) m hm,
      redirected_pool_some aHeap ms hne, ?_⟩
    have hb := redirected_block_bound aHeap ms hpool (ms.length - 1) m hm
    have hs := congrArg List.length (redirected_state_pool_succ aHeap ms (ms.length - 1) m hm)
    rw [Nat.sub_add_cancel hpos, redirected_state_full] at hs
    simp only [List.length_append, index_groups_length] at hs
    rw [index_group_count_eq m (hidx m hmem)] at hs hb
    have hv := hlen m hmem
    simp only
    rw [Nat.mod_eq_of_lt (by omega)]
    omega

/-- C1 witness: the amended statement applied to `[quad_meshlet, triangle_meshlet]`. -/
theorem C1_witness :
    (∀ m ∈ [quad_meshlet, triangle_meshlet], m.mVertices.length = m.mVertexCount) ∧
    (∀ m ∈ [quad_meshlet, triangle_meshlet], m.mIndexCount + 3 < 4294967296) ∧
    (∀ i m, [quad_meshlet, triangle_meshlet][i]? = some m →
      i + 1 < [quad_meshlet, triangle_meshlet].length →
      ∃ r r1,
        (convert_for_gpu_usage_redirected example_heap
          [quad_meshlet, triangle_meshlet]).1[i]? = some r ∧
        (convert_for_gpu_usage_redirected example_heap
          [quad_meshlet, triangle_meshlet]).1[i + 1]? = some r1 ∧
        r1.mDataOffset = r.mDataOffset + m.mVertexCount + (m.mIndexCount + 3) / 4) :=
  ⟨by decide, by decide,
    (C1_redirected_offsets_are_prefix_sums example_heap [quad_meshlet, triangle_meshlet]
      (by decide) (by decide)
      (by
        have hres : (convert_for_gpu_usage_redirected example_heap
            [quad_meshlet, triangle_meshlet]).2 =
            some [10, 11, 12, 13, 33685760, 769, 20, 21, 22, 4278321408] := by decide
        intro pool h
        rw [hres] at h
        cases h
        decide)).2.1⟩

/-! ## Redirected packing: packed local indices -/

theorem index_byte_lt (aTrailing : Nat → Nat) (aIndices : List Nat) (k : Nat) :
    index_byte aTrailing aIndices k < 256 := by
  unfold index_byte
  split <;> exact Nat.mod_lt _ (by decide)

theorem word_byte_index_group (aTrailing : Nat → Nat) (aIndices : List Nat) (g k : Nat)
    (hk : k < 4) :
    word_byte (index_group aTrailing aIndices g) k = index_byte aTrailing aIndices (4 * g + k) := by
  have h0 := index_byte_lt aTrailing aIndices (4 * g)
  have h1 := index_byte_lt aTrailing aIndices (4 * g + 1)
  have h2 := index_byte_lt aTrailing aIndices (4 * g + 2)
  have h3 := index_byte_lt aTrailing aIndices (4 * g + 3)
  unfold word_byte index_group
  interval_cases k
  · simp only [pow_zero, Nat.div_one, Nat.add_zero]
    omega
  · simp only [pow_one]
    omega
  · have : (256 : Nat) ^ 2 = 65536 := by norm_num
    rw [this]
    omega
  · have : (256 : Nat) ^ 3 = 16777216 := by norm_num
    rw [this]
    omega

theorem index_byte_inside (aTrailing : Nat → Nat) (aIndices : List Nat) (k : Nat)
    (hk : k < aIndices.length) (hb : ∀ b ∈ aIndices, b < 256) :
    aIndices[k]? = some (index_byte aTrailing aIndices k) := by
  unfold index_byte
  rw [dif_pos hk, List.getElem?_eq_getElem hk,
    Nat.mod_eq_of_lt (hb _ (List.getElem_mem hk))]

theorem index_groups_at (aTrailing : Nat → Nat) (m : meshlet) (g : Nat)
    (hg : g < index_group_count m) :
    (index_groups aTrailing m)[g]? = some (index_group aTrailing m.mIndices g) := by
  unfold index_groups
  rw [List.getElem?_map, List.getElem?_range hg]
  rfl

/-- After `huge_vertex_meshlet` the pool holds `2 ^ 32` words, so the offset recorded for
the meshlet that follows it is `0`. -/
theorem huge_vertex_next_offset (aHeap : Nat → Nat → Nat) (m2 : meshlet)
    (r : meshlet_redirected_gpu_data)
    (hr : (convert_for_gpu_usage_redirected aHeap [huge_vertex_meshlet, m2]).1[1]? = some r) :
    r.mDataOffset = 0 := by
  have hverts : huge_vertex_meshlet.mVertices = List.range 4294967295 := by
    simp only [huge_vertex_meshlet]
  have hcount : index_group_count huge_vertex_meshlet = 1 := by decide
  have h0 : [huge_vertex_meshlet, m2][0]? = some huge_vertex_meshlet := rfl
  have h1 : [huge_vertex_meshlet, m2][1]? = some m2 := rfl
  have e1 := redirected_state_pool_succ aHeap _ 0 huge_vertex_meshlet h0
  have e2 : huge_vertex_meshlet.mVertices.length = 4294967295 := by
    rw [hverts, List.length_range]
  have hlen : (pool_of (redirected_state aHeap [huge_vertex_meshlet, m2] 1)).length =
      4294967296 := by
    rw [e1, redirected_state_zero, List.nil_append, List.length_append,
      index_groups_length, hcount, e2]
  rw [redirected_record_at aHeap _ 1 m2 h1, hlen] at hr
  rw [← Option.some.inj hr]

/-- The pool of a sequence that starts with `huge_vertex_meshlet` starts with its vertex
indices: word `k` is `k`. -/
theorem huge_vertex_pool_word (aHeap : Nat → Nat → Nat) (m2 : meshlet) (pool : List Nat)
    (hp : (convert_for_gpu_usage_redirected aHeap [huge_vertex_meshlet, m2]).2 = some pool)
    (k : Nat) (hk : k < 4294967295) : pool[k]? = some k := by
  have hverts : huge_vertex_meshlet.mVertices = List.range 4294967295 := by
    simp only [huge_vertex_meshlet]
  have h0 : [huge_vertex_meshlet, m2][0]? = some huge_vertex_meshlet := rfl
  obtain ⟨rs, ps, _, h2, _⟩ := redirected_layout aHeap _ 0 huge_vertex_meshlet h0
  rw [h2, redirected_state_zero, List.nil_append, List.append_assoc] at hp
  rw [← Option.some.inj hp, List.getElem?_append_left (by rw [hverts, List.length_range]; exact hk),
    hverts]
  exact List.getElem?_range hk

theorem huge_vertex_meshlet_in_range :
    huge_vertex_meshlet.in_range ∧
      huge_vertex_meshlet.mVertices.length = huge_vertex_meshlet.mVertexCount := by
  have hverts : huge_vertex_meshlet.mVertices = List.range 4294967295 := by
    simp only [huge_vertex_meshlet]
  refine ⟨⟨by decide, by decide, ?_, by decide⟩, ?_⟩
  · intro v hv
    rw [hverts, List.mem_range] at hv
    omega
  · rw [hverts, List.length_range]
    rfl

/-- C2, as stated, fails, in two ways. First, `huge_index_meshlet` has a vertex list of
length `vertexCount`, `4 * ceil(indexCount / 4) = 2 ^ 32` local indices and
`0 < indexCount`, but the returned pool holds its two vertex indices only, so no pool word
holds its local index number 0: the group count `(mIndexCount + 3) / 4` is computed in
`uint32_t`, where `4294967295 + 3` wraps to `2`. Second, in
`[huge_vertex_meshlet, quad_meshlet]` the offset recorded for `quad_meshlet` is `2 ^ 32`
narrowed to `uint32_t`, which is `0`; the pool word at `offset + vertexCount + 0` is word
`4`, a vertex index of the first meshlet with value `4`, whose byte 0 is not the local index
number 0 of `quad_meshlet`, which is `0`. -/
theorem C2_counterexample :
    (huge_index_meshlet.in_range ∧
      huge_index_meshlet.mVertices.length = huge_index_meshlet.mVertexCount ∧
      4 * ((huge_index_meshlet.mIndexCount + 3) / 4) ≤ huge_index_meshlet.mIndices.length ∧
      0 < huge_index_meshlet.mIndexCount ∧
      ¬ (∃ r pool w b,
          (convert_for_gpu_usage_redirected example_heap [huge_index_meshlet]).1[0]? = some r ∧
          (convert_for_gpu_usage_redirected example_heap [huge_index_meshlet]).2 = some pool ∧
          pool[r.mDataOffset + huge_index_meshlet.mVertexCount + 0 / 4]? = some w ∧
          huge_index_meshlet.mIndices[0]? = some b ∧
          word_byte w (0 % 4) = b)) ∧
    ((∀ m ∈ [huge_vertex_meshlet, quad_meshlet],
        m.in_range ∧ m.mVertices.length = m.mVertexCount) ∧
      4 * ((quad_meshlet.mIndexCount + 3) / 4) ≤ quad_meshlet.mIndices.length ∧
      0 < quad_meshlet.mIndexCount ∧
      ¬ (∃ r pool w b,
          (convert_for_gpu_usage_redirected example_heap
            [huge_vertex_meshlet, quad_meshlet]).1[1]? = some r ∧
          (convert_for_gpu_usage_redirected example_heap
            [huge_vertex_meshlet, quad_meshlet]).2 = some pool ∧
          pool[r.mDataOffset + quad_meshlet.mVertexCount + 0 / 4]? = some w ∧
          quad_meshlet.mIndices[0]? = some b ∧
          word_byte w (0 % 4) = b)) := by
  have hidx : huge_index_meshlet.mIndices = List.replicate 4294967296 1 := by
    simp only [huge_index_meshlet]
  have hcount : index_group_count huge_index_meshlet = 0 := by decide
  have hpool : (convert_for_gpu_usage_redirected example_heap [huge_index_meshlet]).2 =
      some [7, 8] := by
    unfold convert_for_gpu_usage_redirected
    rw [List.foldl_cons, List.foldl_nil, redirected_entry_pool,
      index_groups_nil _ _ hcount]
    rfl
  refine ⟨⟨⟨by decide, by decide, by decide, ?_⟩, rfl, ?_, by decide, ?_⟩,
    ?_, by decide, by decide, ?_⟩
  · intro b hb
    rw [hidx] at hb
    rw [List.eq_of_mem_replicate hb]
    decide
  · rw [hidx, List.length_replicate]
    decide
  · rintro ⟨r, pool, w, b, _, hp, hw, _, _⟩
    rw [hpool] at hp
    rw [← Option.some.inj hp, List.getElem?_eq_none] at hw
    · cases hw
    · have hvc : huge_index_meshlet.mVertexCount = 2 := rfl
      rw [hvc]
      simp
  · intro m hm
    simp only [List.mem_cons, List.mem_singleton, List.not_mem_nil, or_false] at hm
    rcases hm with rfl | rfl
    · exact huge_vertex_meshlet_in_range
    · decide
  · rintro ⟨r, pool, w, b, hr, hp, hw, hb, hbyte⟩
    have hoff := huge_vertex_next_offset example_heap quad_meshlet r hr
    have hi : r.mDataOffset + quad_meshlet.mVertexCount + 0 / 4 = 4 := by
      rw [hoff]
      rfl
    rw [hi, huge_vertex_pool_word example_heap quad_meshlet pool hp 4 (by omega)] at hw
    have hb0 : quad_meshlet.mIndices[0]? = some 0 := rfl
    rw [hb0] at hb
    rw [← Option.some.inj hw, ← Option.some.inj hb] at hbyte
    revert hbyte
    decide

/-- C2 (amended): redirected packing packs local indices four per 32-bit word in source
order. For every meshlet `i` of the input and every `j < indexCount[i]`, byte `j mod 4`
(counted from the least significant byte) of pool word
`offset[i] + vertexCount[i] + floor(j / 4)` equals the meshlet's `j`-th local index, given
that the meshlet's vertex list has length `vertexCount[i]`, its local-index list has at least
`4 * ceil(indexCount[i] / 4)` entries, and additionally that `indexCount[i]` is at most
`2 ^ 32 - 4` and the pool stays below `2 ^ 32` words. The condition `m.in_range` states the
value ranges of the C++ member types of the meshlet. -/
theorem C2_redirected_packs_four_indices_per_word (aHeap : Nat → Nat → Nat)
    (ms : List meshlet) (i j : Nat) (m : meshlet) (hm : ms[i]? = some m)
    (hrange : m.in_range)
    (hlen : m.mVertices.length = m.mVertexCount)
    (hbytes : 4 * ((m.mIndexCount + 3) / 4) ≤ m.mIndices.length)
    (hj : j < m.mIndexCount)
    (hidx : m.mIndexCount + 3 < 4294967296)
    (hpool : ∀ pool, (convert_for_gpu_usage_redirected aHeap ms).2 = some pool →
      pool.length < 4294967296) :
    ∃ r pool w b,
      (convert_for_gpu_usage_redirected aHeap ms).1[i]? = some r ∧
      (convert_for_gpu_usage_redirected aHeap ms).2 = some pool ∧
      pool[r.mDataOffset + m.mVertexCount + j / 4]? = some w ∧
      m.mIndices[j]? = some b ∧
      word_byte w (j % 4) = b := by
  obtain ⟨rs, ps, _, h2, _⟩ := redirected_layout aHeap ms i m hm
  have hb := redirected_block_bound aHeap ms hpool i m hm
  have hcount := index_group_count_eq m hidx
  have hg : j / 4 < index_group_count m := by
    rw [hcount]
    omega
  have hjlen : j < m.mIndices.length := by omega
  refine ⟨_, _, index_group (aHeap i) m.mIndices (j / 4), index_byte (aHeap i) m.mIndices j,
    redirected_record_at aHeap ms i m hm, h2, ?_, ?_, ?_⟩
  · simp only
    rw [Nat.mod_eq_of_lt (by omega), ← hlen]
    have h1 : (pool_of (redirected_state aHeap ms i) ++ m.mVertices).length ≤
        (pool_of (redirected_state aHeap ms i)).length + m.mVertices.length + j / 4 := by
      rw [List.length_append]
      omega
    rw [List.append_assoc (pool_of (redirected_state aHeap ms i) ++ m.mVertices),
      List.getElem?_append_right h1, List.length_append]
    have h3 : (pool_of (redirected_state aHeap ms i)).length + m.mVertices.length + j / 4 -
        ((pool_of (redirected_state aHeap ms i)).length + m.mVertices.length) = j / 4 := by
      omega
    rw [h3, List.getElem?_append_left (by rw [index_groups_length]; exact hg)]
    exact index_groups_at (aHeap i) m (j / 4) hg
  · exact index_byte_inside (aHeap i) m.mIndices j hjlen hrange.2.2.2
  · rw [word_byte_index_group (aHeap i) m.mIndices (j / 4) (j % 4) (Nat.mod_lt _ (by decide))]
    congr 1
    omega

/-- C2 witness: local index number 5 of `quad_meshlet`, the first of two meshlets. -/
theorem C2_witness :
    ∃ r pool w b,
      (convert_for_gpu_usage_redirected example_heap
        [quad_meshlet, triangle_meshlet]).1[0]? = some r ∧
      (convert_for_gpu_usage_redirected example_heap
        [quad_meshlet, triangle_meshlet]).2 = some pool ∧
      pool[r.mDataOffset + quad_meshlet.mVertexCount + 5 / 4]? = some w ∧
      quad_meshlet.mIndices[5]? = some b ∧
      word_byte w (5 % 4) = b :=
  C2_redirected_packs_four_indices_per_word example_heap [quad_meshlet, triangle_meshlet]
    0 5 quad_meshlet rfl (by decide) (by decide) (by decide) (by decide) (by decide)
    (by
      have hres : (convert_for_gpu_usage_redirected example_heap
          [quad_meshlet, triangle_meshlet]).2 =
          some [10, 11, 12, 13, 33685760, 769, 20, 21, 22, 4278321408] := by decide
      intro pool h
      rw [hres] at h
      cases h
      decide)

/-! ## Redirected packing: vertex indices -/

/-- C3, as stated, fails: in `[huge_vertex_meshlet, triangle_meshlet]` both vertex lists have
length `vertexCount`, the first meshlet fills `2 ^ 32` pool words, and the offset recorded
for the second meshlet is `2 ^ 32` narrowed to `uint32_t`, which is `0`. The pool word at
that offset is the first vertex index of the first meshlet, `0`, not the first vertex index
of the second meshlet, `20`. -/
theorem C3_counterexample :
    (∀ m ∈ [huge_vertex_meshlet, triangle_meshlet],
        m.in_range ∧ m.mVertices.length = m.mVertexCount) ∧
    ¬ (∃ r pool,
        (convert_for_gpu_usage_redirected example_heap
          [huge_vertex_meshlet, triangle_meshlet]).1[1]? = some r ∧
        (convert_for_gpu_usage_redirected example_heap
          [huge_vertex_meshlet, triangle_meshlet]).2 = some pool ∧
        ∀ k, k < triangle_meshlet.mVertexCount →
          pool[r.mDataOffset + k]? = triangle_meshlet.mVertices[k]?) := by
  constructor
  · intro m hm
    simp only [List.mem_cons, List.mem_singleton, List.not_mem_nil, or_false] at hm
    rcases hm with rfl | rfl
    · exact huge_vertex_meshlet_in_range
    · decide
  · rintro ⟨r, pool, hr, hp, hk⟩
    have hoff := huge_vertex_next_offset example_heap triangle_meshlet r hr
    have h := hk 0 (by decide)
    rw [hoff, Nat.add_zero,
      huge_vertex_pool_word example_heap triangle_meshlet pool hp 0 (by omega)] at h
    revert h
    decide

/-- C3 (amended): redirected packing stores vertex indices as-is. For every meshlet sequence
whose pool stays below `2 ^ 32` words, the returned record sequence has one record per
meshlet in input order, and for every meshlet `i` whose vertex list has length
`vertexCount[i]` the pool words at positions `offset[i] .. offset[i] + vertexCount[i] - 1`
are exactly that meshlet's vertex indices in their original order. -/
theorem C3_redirected_stores_vertex_indices (aHeap : Nat → Nat → Nat) (ms : List meshlet)
    (hpool : ∀ pool, (convert_for_gpu_usage_redirected aHeap ms).2 = some pool →
      pool.length < 4294967296) :
    (convert_for_gpu_usage_redirected aHeap ms).1.length = ms.length ∧
    ∀ (i : Nat) (m : meshlet), ms[i]? = some m → m.mVertices.length = m.mVertexCount →
      ∃ r pool,
        (convert_for_gpu_usage_redirected aHeap ms).1[i]? = some r ∧
        r.mVertexCount = m.mVertexCount % 256 ∧
        r.mPrimitiveCount = m.mIndexCount / 3 % 256 ∧
        (convert_for_gpu_usage_redirected aHeap ms).2 = some pool ∧
        ∀ k, k < m.mVertexCount → pool[r.mDataOffset + k]? = m.mVertices[k]? := by
  refine ⟨redirected_records_length aHeap ms, ?_⟩
  intro i m hm hlen
  obtain ⟨rs, ps, _, h2, _⟩ := redirected_layout aHeap ms i m hm
  have hb := redirected_block_bound aHeap ms hpool i m hm
  refine ⟨_, _, redirected_record_at aHeap ms i m hm, rfl, rfl, h2, ?_⟩
  intro k hk
  simp only
  rw [Nat.mod_eq_of_lt (by omega), List.append_assoc, List.append_assoc,
    List.getElem?_append_right (Nat.le_add_right _ _), Nat.add_sub_cancel_left,
    List.getElem?_append_left (by omega)]

/-- C3 witness: the second of the two meshlets `[quad_meshlet, triangle_meshlet]`. -/
theorem C3_witness :
    ∃ r pool,
      (convert_for_gpu_usage_redirected example_heap
        [quad_meshlet, triangle_meshlet]).1[1]? = some r ∧
      r.mVertexCount = triangle_meshlet.mVertexCount % 256 ∧
      r.mPrimitiveCount = triangle_meshlet.mIndexCount / 3 % 256 ∧
      (convert_for_gpu_usage_redirected example_heap
        [quad_meshlet, triangle_meshlet]).2 = some pool ∧
      ∀ k, k < triangle_meshlet.mVertexCount →
        pool[r.mDataOffset + k]? = triangle_meshlet.mVertices[k]? :=
  (C3_redirected_stores_vertex_indices example_heap [quad_meshlet, triangle_meshlet]
    (by
      have hres : (convert_for_gpu_usage_redirected example_heap
          [quad_meshlet, triangle_meshlet]).2 =
          some [10, 11, 12, 13, 33685760, 769, 20, 21, 22, 4278321408] := by decide
      intro pool h
      rw [hres] at h
      cases h
      decide)).2 1 triangle_meshlet rfl (by decide)

/-! ## Fixed-layout packing -/

theorem copy_into_array_ok (aSource : List Nat) (aSize : Nat) (h : aSource.length ≤ aSize) :
    copy_into_array aSource aSize =
      some (aSource ++ List.replicate (aSize - aSource.length) 0) := by
  unfold copy_into_array
  rw [if_pos h]

theorem write_image_error (aImage : List Nat) (aOffset : Nat) (aBytes : List Nat)
    (e : failure) (h : write_image aImage aOffset aBytes = .error e) :
    e = failure.out_of_bounds := by
  unfold write_image at h
  split at h
  · cases h
  · cases h
    rfl

theorem overrun_record_error (NV NI : Nat) (m : meshlet) (e : failure)
    (h : overrun_record NV NI m = .error e) : e = failure.out_of_bounds := by
  unfold overrun_record at h
  simp only at h
  split at h
  · rename_i e1 h1
    cases h
    exact write_image_error _ _ _ _ h1
  · split at h
    · rename_i e2 h2
      cases h
      exact write_image_error _ _ _ _ h2
    · cases h

theorem fixed_entry_ok (NV NI : Nat) (acc : List meshlet_gpu_data) (m : meshlet)
    (hv : m.mVertices.length ≤ NV) (hi : m.mIndices.length ≤ NI) :
    fixed_entry NV NI acc m = .ok (acc ++ [fixed_record NV NI m]) := by
  unfold fixed_entry
  rw [copy_into_array_ok _ _ hv, copy_into_array_ok _ _ hi]
  rfl

theorem fixed_entry_error (NV NI : Nat) (acc : List meshlet_gpu_data) (m : meshlet)
    (e : failure) (h : fixed_entry NV NI acc m = .error e) : e = failure.out_of_bounds := by
  unfold fixed_entry at h
  split at h
  · cases h
  · cases h1 : overrun_record NV NI m with
    | error e1 =>
      rw [h1] at h
      cases h
      exact overrun_record_error NV NI m _ h1
    | ok ml =>
      rw [h1] at h
      cases h

theorem fixed_loop_ok (NV NI : Nat) (ms : List meshlet)
    (h : ∀ m ∈ ms, m.mVertices.length ≤ NV ∧ m.mIndices.length ≤ NI) :
    ∀ acc, fixed_loop NV NI ms acc = .ok (acc ++ ms.map (fixed_record NV NI)) := by
  induction ms with
  | nil => intro acc; simp [fixed_loop]
  | cons m rest ih =>
    intro acc
    have hm := h m (List.mem_cons_self _ _)
    unfold fixed_loop
    rw [fixed_entry_ok NV NI acc m hm.1 hm.2]
    simp only
    rw [ih (fun x hx => h x (List.mem_cons_of_mem _ hx))]
    simp

theorem fixed_loop_error (NV NI : Nat) (ms : List meshlet) (e : failure) :
    ∀ acc, fixed_loop NV NI ms acc = .error e → e = failure.out_of_bounds := by
  induction ms with
  | nil =>
    intro acc h
    simp [fixed_loop] at h
  | cons m rest ih =>
    intro acc h
    unfold fixed_loop at h
    cases h1 : fixed_entry NV NI acc m with
    | error e1 =>
      rw [h1] at h
      cases h
      exact fixed_entry_error NV NI acc m _ h1
    | ok next =>
      rw [h1] at h
      exact ih next h

/-- The only way in which fixed-layout packing does not return is a copy that runs past a
fixed-size array; it never throws a logic error. -/
theorem convert_for_gpu_usage_fixed_error (NV NI : Nat) (ms : List meshlet) (e : failure)
    (h : convert_for_gpu_usage_fixed NV NI ms = .error e) : e = failure.out_of_bounds := by
  unfold convert_for_gpu_usage_fixed at h
  cases h1 : fixed_loop NV NI ms [] with
  | error e1 =>
    rw [h1] at h
    cases h
    exact fixed_loop_error NV NI ms _ [] h1
  | ok recs =>
    rw [h1] at h
    cases h

theorem convert_for_gpu_usage_fixed_ok (NV NI : Nat) (ms : List meshlet)
    (h : ∀ m ∈ ms, m.mVertices.length ≤ NV ∧ m.mIndices.length ≤ NI) :
    convert_for_gpu_usage_fixed NV NI ms = .ok (ms.map (fixed_record NV NI), none) := by
  unfold convert_for_gpu_usage_fixed
  rw [fixed_loop_ok NV NI ms h []]
  rfl

/-- Where both lists fit their arrays, writing through the bytes of the record gives the
record of the list-wise copy: checked for `triangle_meshlet` with `NV = 4`, `NI = 6`. -/
theorem overrun_record_agrees_within_capacity :
    overrun_record 4 6 triangle_meshlet = .ok (fixed_record 4 6 triangle_meshlet) := rfl

/-- C4: fixed-layout packing does not reject over-capacity input, it writes past the fixed
array. With `NV = 2` and `NI = 3`, `triangle_meshlet` is over capacity (three vertices, list
lengths equal to the counts). The call raises no error: the copy of the vertex list writes
the third vertex index, `22`, over `mIndices` and `mVertexCount`, the copy of the local
indices then fills `mIndices`, and the call returns one record with vertex slots `20, 21`,
index slots `0, 1, 2`, vertex count `0` and primitive count `1`; the vertex index `22` is
lost. For no `NV`, `NI` and meshlet sequence does the call fail with a logic error. -/
theorem C4_fixed_layout_writes_past_its_arrays :
    triangle_meshlet.in_range ∧
    triangle_meshlet.mVertices.length = triangle_meshlet.mVertexCount ∧
    triangle_meshlet.mIndices.length = triangle_meshlet.mIndexCount ∧
    2 < triangle_meshlet.mVertexCount ∧
    convert_for_gpu_usage_fixed 2 3 [triangle_meshlet] =
      .ok ([{ mVertices := [20, 21], mIndices := [0, 1, 2],
              mVertexCount := 0, mPrimitiveCount := 1 }], none) ∧
    ∀ (NV NI : Nat) (ms : List meshlet),
      convert_for_gpu_usage_fixed NV NI ms ≠ .error failure.logic_error := by
  refine ⟨by decide, by decide, by decide, by decide, rfl, ?_⟩
  intro NV NI ms h
  have he := convert_for_gpu_usage_fixed_error NV NI ms _ h
  cases he

/-- C5, as stated, fails. With `NV = 256` and `NI = 3`, `wide_meshlet` is within capacity
(`vertexCount = 256 ≤ NV`, `indexCount = 3 ≤ NI`, list lengths equal to the counts), the
call succeeds, but the record's vertex count is `0`, not `256`. With `NV = 1` and
`NI = 768`, `long_meshlet` is within capacity, the call succeeds, but the record's
primitive count is `0`, not `768 / 3 = 256`. The members `mVertexCount` and
`mPrimitiveCount` of the record are `uint8_t`. -/
theorem C5_counterexample :
    (wide_meshlet.mVertexCount = 256 ∧
      wide_meshlet.mVertexCount ≤ 256 ∧ wide_meshlet.mIndexCount ≤ 3 ∧
      wide_meshlet.mVertices.length = wide_meshlet.mVertexCount ∧
      wide_meshlet.mIndices.length = wide_meshlet.mIndexCount ∧
      ∃ recs, convert_for_gpu_usage_fixed 256 3 [wide_meshlet] = .ok (recs, none) ∧
        recs.map (fun r => r.mVertexCount) = [0]) ∧
    (long_meshlet.mIndexCount / 3 = 256 ∧
      long_meshlet.mVertexCount ≤ 1 ∧ long_meshlet.mIndexCount ≤ 768 ∧
      long_meshlet.mVertices.length = long_meshlet.mVertexCount ∧
      long_meshlet.mIndices.length = long_meshlet.mIndexCount ∧
      ∃ recs, convert_for_gpu_usage_fixed 1 768 [long_meshlet] = .ok (recs, none) ∧
        recs.map (fun r => r.mPrimitiveCount) = [0]) := by
  have hlen : wide_meshlet.mVertices.length = 256 := by
    simp only [wide_meshlet, List.length_range]
  have hlen2 : long_meshlet.mIndices.length = 768 := by
    simp only [long_meshlet, List.length_replicate]
  refine ⟨⟨rfl, by decide, by decide, hlen, rfl,
    _, convert_for_gpu_usage_fixed_ok 256 3 [wide_meshlet] ?_, rfl⟩,
    ⟨rfl, by decide, by decide, rfl, hlen2,
    _, convert_for_gpu_usage_fixed_ok 1 768 [long_meshlet] ?_, rfl⟩⟩
  · intro m hm
    rw [List.mem_singleton] at hm
    subst hm
    rw [hlen]
    exact ⟨Nat.le_refl _, by decide⟩
  · intro m hm
    rw [List.mem_singleton] at hm
    subst hm
    rw [hlen2]
    exact ⟨by decide, Nat.le_refl _⟩

/-- C5 (amended): fixed-layout packing within capacity is a verbatim copy. For every `NV`,
`NI` and every meshlet sequence in which each meshlet has `vertexCount ≤ NV` and
`indexCount ≤ NI` (list lengths equal to the counts), the call succeeds, returns no pool and
returns one record per meshlet in input order, with `NV` vertex slots and `NI` index slots,
whose first `vertexCount` vertex slots and first `indexCount` index slots equal the
meshlet's vertex indices and local indices, whose vertex count equals `vertexCount` modulo
256 and whose primitive count equals `indexCount / 3` modulo 256 (both are 8-bit members):
they equal `vertexCount` and `indexCount / 3` whenever these are below 256. -/
theorem C5_fixed_within_capacity_copies_verbatim (NV NI : Nat) (ms : List meshlet)
    (h : ∀ m ∈ ms, m.mVertexCount ≤ NV ∧ m.mIndexCount ≤ NI ∧
      m.mVertices.length = m.mVertexCount ∧ m.mIndices.length = m.mIndexCount) :
    ∃ recs, convert_for_gpu_usage_fixed NV NI ms = .ok (recs, none) ∧
      recs.length = ms.length ∧
      ∀ (i : Nat) (m : meshlet), ms[i]? = some m →
        ∃ r, recs[i]? = some r ∧
          r.mVertices.length = NV ∧ r.mIndices.length = NI ∧
          r.mVertices.take m.mVertexCount = m.mVertices ∧
          r.mIndices.take m.mIndexCount = m.mIndices ∧
          r.mVertexCount = m.mVertexCount % 256 ∧
          r.mPrimitiveCount = m.mIndexCount / 3 % 256 ∧
          (m.mVertexCount < 256 → r.mVertexCount = m.mVertexCount) ∧
          (m.mIndexCount / 3 < 256 → r.mPrimitiveCount = m.mIndexCount / 3) := by
  have hfit : ∀ m ∈ ms, m.mVertices.length ≤ NV ∧ m.mIndices.length ≤ NI := by
    intro m hm
    obtain ⟨h1, h2, h3, h4⟩ := h m hm
    omega
  refine ⟨_, convert_for_gpu_usage_fixed_ok NV NI ms hfit, by simp, ?_⟩
  intro i m hm
  obtain ⟨h1, h2, h3, h4⟩ := h m (List.getElem?_mem hm)
  refine ⟨fixed_record NV NI m, ?_, ?_, ?_, ?_, ?_, rfl, rfl, ?_, ?_⟩
  · rw [List.getElem?_map, hm]
    rfl
  · simp only [fixed_record, List.length_append, List.length_replicate]
    omega
  · simp only [fixed_record, List.length_append, List.length_replicate]
    omega
  · simp only [fixed_record]
    rw [← h3, List.take_left]
  · simp only [fixed_record]
    rw [← h4, List.take_left]
  · intro hlt
    exact Nat.mod_eq_of_lt hlt
  · intro hlt
    exact Nat.mod_eq_of_lt hlt

/-- C5 witness: `[triangle_meshlet]` packed with `NV = 4`, `NI = 6`. -/
theorem C5_witness :
    ∃ recs, convert_for_gpu_usage_fixed 4 6 [triangle_meshlet] = .ok (recs, none) ∧
      recs.length = [triangle_meshlet].length ∧
      ∀ (i : Nat) (m : meshlet), [triangle_meshlet][i]? = some m →
        ∃ r, recs[i]? = some r ∧
          r.mVertices.length = 4 ∧ r.mIndices.length = 6 ∧
          r.mVertices.take m.mVertexCount = m.mVertices ∧
          r.mIndices.take m.mIndexCount = m.mIndices ∧
          r.mVertexCount = m.mVertexCount % 256 ∧
          r.mPrimitiveCount = m.mIndexCount / 3 % 256 ∧
          (m.mVertexCount < 256 → r.mVertexCount = m.mVertexCount) ∧
          (m.mIndexCount / 3 < 256 → r.mPrimitiveCount = m.mIndexCount / 3) :=
  C5_fixed_within_capacity_copies_verbatim 4 6 [triangle_meshlet] (by decide)

/-! ## Serializer -/

theorem resize_self {α : Type} (xs : List α) (z : α) : resize xs xs.length z = xs := by
  simp [resize]

theorem resize_nil {α : Type} (n : Nat) (z : α) : resize [] n z = List.replicate n z := by
  simp [resize]

theorem written_word (ws : List Nat) : written (fun w => [w]) ws = ws := by
  induction ws with
  | nil => rfl
  | cons w rest ih => simp [written, ih]

/-- Archiving elements in serialize mode returns them unchanged and appends their entries,
if archiving one element does. -/
theorem archive_elements_serialize {α : Type}
    (aSerialize : serializer → α → Except failure (α × serializer))
    (aEntries : α → List Nat)
    (h : ∀ st x, aSerialize ⟨.serialize, st⟩ x = .ok (x, ⟨.serialize, st ++ aEntries x⟩))
    (xs : List α) :
    ∀ st, serializer.archive_elements aSerialize ⟨.serialize, st⟩ xs =
      .ok (xs, ⟨.serialize, st ++ written aEntries xs⟩) := by
  induction xs with
  | nil => intro st; simp [serializer.archive_elements, written]
  | cons x rest ih =>
    intro st
    unfold serializer.archive_elements
    rw [h st x]
    simp only
    rw [ih]
    simp [written, List.append_assoc]

/-- Archiving elements in deserialize mode reads back the elements whose entries are at the
front of the stream, if archiving one element does. -/
theorem archive_elements_deserialize {α : Type}
    (aSerialize : serializer → α → Except failure (α × serializer))
    (aEntries : α → List Nat)
    (h : ∀ x z rest, aSerialize ⟨.deserialize, aEntries x ++ rest⟩ z =
      .ok (x, ⟨.deserialize, rest⟩))
    (xs : List α) :
    ∀ zs rest, zs.length = xs.length →
      serializer.archive_elements aSerialize ⟨.deserialize, written aEntries xs ++ rest⟩ zs =
        .ok (xs, ⟨.deserialize, rest⟩) := by
  induction xs with
  | nil =>
    intro zs rest hz
    rw [List.length_eq_zero.mp hz]
    simp [serializer.archive_elements, written]
  | cons x more ih =>
    intro zs rest hz
    cases zs with
    | nil => simp at hz
    | cons z zs1 =>
      unfold serializer.archive_elements
      rw [written, List.append_assoc, h x z]
      simp only
      rw [ih zs1 rest (by simpa using hz)]

theorem archive_vector_serialize {α : Type}
    (aSerialize : serializer → α → Except failure (α × serializer))
    (aEntries : α → List Nat) (aZero : α)
    (h : ∀ st x, aSerialize ⟨.serialize, st⟩ x = .ok (x, ⟨.serialize, st ++ aEntries x⟩))
    (xs : List α) (st : List Nat) :
    serializer.archive_vector aSerialize aZero ⟨.serialize, st⟩ xs =
      .ok (xs, ⟨.serialize, st ++ xs.length :: written aEntries xs⟩) := by
  unfold serializer.archive_vector serializer.archive_value
  simp only
  rw [resize_self, archive_elements_serialize aSerialize aEntries h]
  simp [List.append_assoc]

theorem archive_vector_deserialize {α : Type}
    (aSerialize : serializer → α → Except failure (α × serializer))
    (aEntries : α → List Nat) (aZero : α)
    (h : ∀ x z rest, aSerialize ⟨.deserialize, aEntries x ++ rest⟩ z =
      .ok (x, ⟨.deserialize, rest⟩))
    (xs : List α) (rest : List Nat) :
    serializer.archive_vector aSerialize aZero
        ⟨.deserialize, xs.length :: written aEntries xs ++ rest⟩ [] =
      .ok (xs, ⟨.deserialize, rest⟩) := by
  unfold serializer.archive_vector serializer.archive_value
  simp only [List.cons_append]
  rw [resize_nil, archive_elements_deserialize aSerialize aEntries h xs _ rest (by simp)]

theorem serialize_word_serialize (st : List Nat) (w : Nat) :
    serialize_word ⟨.serialize, st⟩ w = .ok (w, ⟨.serialize, st ++ [w]⟩) := rfl

theorem serialize_word_deserialize (w z : Nat) (rest : List Nat) :
    serialize_word ⟨.deserialize, [w] ++ rest⟩ z = .ok (w, ⟨.deserialize, rest⟩) := rfl

theorem serialize_redirected_serialize (st : List Nat) (r : meshlet_redirected_gpu_data) :
    serialize_meshlet_redirected_gpu_data ⟨.serialize, st⟩ r =
      .ok (r, ⟨.serialize, st ++ redirected_gpu_data_entries r⟩) := by
  simp [serialize_meshlet_redirected_gpu_data, serializer.archive_value,
    redirected_gpu_data_entries]

theorem serialize_redirected_deserialize (r z : meshlet_redirected_gpu_data)
    (rest : List Nat) :
    serialize_meshlet_redirected_gpu_data ⟨.deserialize, redirected_gpu_data_entries r ++ rest⟩ z =
      .ok (r, ⟨.deserialize, rest⟩) := by
  simp [serialize_meshlet_redirected_gpu_data, serializer.archive_value,
    redirected_gpu_data_entries]

theorem serialize_gpu_data_serialize (NV NI : Nat) (st : List Nat) (r : meshlet_gpu_data) :
    serialize_meshlet_gpu_data NV NI ⟨.serialize, st⟩ r =
      .ok (r, ⟨.serialize, st ++ gpu_data_entries NI r⟩) := by
  simp [serialize_meshlet_gpu_data, serializer.archive_value,
    serializer.archive_binary_data, gpu_data_entries, List.append_assoc]

theorem archive_pool_serialize (st : List Nat) (aPool : Option (List Nat)) :
    (⟨.serialize, st⟩ : serializer).archive_pool aPool =
      .ok (aPool, ⟨.serialize, st ++ pool_entries aPool⟩) := by
  cases aPool with
  | none => rfl
  | some pool =>
    unfold serializer.archive_pool
    simp only [serializer.archive_value]
    rw [archive_vector_serialize serialize_word (fun w => [w]) 0 serialize_word_serialize,
      written_word]
    simp [pool_entries, List.append_assoc]

theorem archive_pool_deserialize (aPool aOld : Option (List Nat)) (rest : List Nat) :
    (⟨.deserialize, pool_entries aPool ++ rest⟩ : serializer).archive_pool aOld =
      .ok (aPool, ⟨.deserialize, rest⟩) := by
  cases aPool with
  | none => rfl
  | some pool =>
    have h := archive_vector_deserialize serialize_word (fun w => [w]) 0
      serialize_word_deserialize pool rest
    rw [written_word, List.cons_append] at h
    unfold serializer.archive_pool
    simp only [pool_entries, List.cons_append, serializer.archive_value]
    rw [if_neg (by decide), h]

/-! ## Cache adapter -/

theorem cached_redirected_serialize (aHeap : Nat → Nat → Nat) (st : List Nat)
    (ms : List meshlet) :
    convert_for_gpu_usage_cached_redirected aHeap ⟨.serialize, st⟩ ms =
      .ok (convert_for_gpu_usage_redirected aHeap ms,
        ⟨.serialize,
          st ++ (((convert_for_gpu_usage_redirected aHeap ms).1.length ::
              written redirected_gpu_data_entries (convert_for_gpu_usage_redirected aHeap ms).1)
            ++ pool_entries (convert_for_gpu_usage_redirected aHeap ms).2)⟩) := by
  unfold convert_for_gpu_usage_cached_redirected
  simp only
  rw [archive_vector_serialize serialize_meshlet_redirected_gpu_data
    redirected_gpu_data_entries _ serialize_redirected_serialize]
  simp only
  rw [archive_pool_serialize, List.append_assoc]

theorem cached_redirected_deserialize (aHeap : Nat → Nat → Nat)
    (recs : List meshlet_redirected_gpu_data) (pool : Option (List Nat)) (rest : List Nat)
    (ms : List meshlet) :
    convert_for_gpu_usage_cached_redirected aHeap
        ⟨.deserialize,
          recs.length :: written redirected_gpu_data_entries recs ++ pool_entries pool ++ rest⟩
        ms =
      .ok ((recs, pool), ⟨.deserialize, rest⟩) := by
  unfold convert_for_gpu_usage_cached_redirected
  simp only
  rw [List.append_assoc,
    archive_vector_deserialize serialize_meshlet_redirected_gpu_data
      redirected_gpu_data_entries _ serialize_redirected_deserialize]
  simp only
  rw [archive_pool_deserialize]

/-- C6: the fixed-layout cache round trip does not reproduce the records of direct packing.
With `NV = 4` and `NI = 6`, serialize mode returns the records of direct packing of
`[triangle_meshlet]`, whose local-index slots are `0, 1, 2, 0, 0, 0`; deserialize mode on
the data that was written returns a record whose vertex slots and counts agree but whose
local-index slots are all `0`. The function `serialize(Archive&, meshlet_gpu_data<NV, NI>&)`
archives `aValue.mVertices` twice, the second time with the size of `mIndices`, and never
archives `aValue.mIndices`. -/
theorem C6_fixed_round_trip_loses_local_indices :
    ∃ direct stream loaded,
      convert_for_gpu_usage_fixed 4 6 [triangle_meshlet] = .ok (direct, none) ∧
      convert_for_gpu_usage_cached_fixed 4 6 ⟨.serialize, []⟩ [triangle_meshlet] =
        .ok ((direct, none), ⟨.serialize, stream⟩) ∧
      convert_for_gpu_usage_cached_fixed 4 6 ⟨.deserialize, stream⟩ [triangle_meshlet] =
        .ok ((loaded, none), ⟨.deserialize, []⟩) ∧
      direct.map (fun r => r.mIndices) = [[0, 1, 2, 0, 0, 0]] ∧
      loaded.map (fun r => r.mIndices) = [[0, 0, 0, 0, 0, 0]] ∧
      loaded.map (fun r => (r.mVertices, r.mVertexCount, r.mPrimitiveCount)) =
        direct.map (fun r => (r.mVertices, r.mVertexCount, r.mPrimitiveCount)) ∧
      loaded ≠ direct :=
  ⟨[⟨[20, 21, 22, 0], [0, 1, 2, 0, 0, 0], 3, 1⟩],
   [1, 20, 0, 0, 0, 21, 0, 0, 0, 22, 0, 0, 0, 0, 0, 0, 0, 20, 0, 0, 0, 21, 0, 3, 1],
   [⟨[20, 21, 22, 0], [0, 0, 0, 0, 0, 0], 3, 1⟩],
   rfl, rfl, rfl, rfl, rfl, rfl, by decide⟩

/-- C7: cache round trip, redirected layout. For every meshlet sequence, running
`convert_for_gpu_usage_cached` in serialize mode appends data to the stream, and running it
in deserialize mode on the data that was written (whatever follows it in the stream, and
whatever meshlets and host memory are passed) returns the records and the pool of direct
redirected packing of the same meshlets, and consumes exactly the data that was written. -/
theorem C7_redirected_cache_round_trip (aHeap : Nat → Nat → Nat) (ms : List meshlet)
    (st : List Nat) :
    ∃ data,
      convert_for_gpu_usage_cached_redirected aHeap ⟨.serialize, st⟩ ms =
        .ok (convert_for_gpu_usage_redirected aHeap ms, ⟨.serialize, st ++ data⟩) ∧
      ∀ (aHeap2 : Nat → Nat → Nat) (ms2 : List meshlet) (rest : List Nat),
        convert_for_gpu_usage_cached_redirected aHeap2 ⟨.deserialize, data ++ rest⟩ ms2 =
          .ok (convert_for_gpu_usage_redirected aHeap ms, ⟨.deserialize, rest⟩) := by
  refine ⟨_, cached_redirected_serialize aHeap st ms, ?_⟩
  intro aHeap2 ms2 rest
  exact cached_redirected_deserialize aHeap2 _ _ rest ms2

/-- C8: serialize mode of the cache adapter. For every meshlet sequence, with a serializer in
serialize mode: for the redirected layout the call returns exactly the result of
`convert_for_gpu_usage` and appends to the stream the records first and then the pool; for
the fixed layout, when `convert_for_gpu_usage` returns, the call returns exactly its result
and appends to the stream the records only, and when `convert_for_gpu_usage` does not
return, neither does the call. -/
theorem C8_serialize_mode_returns_packer_result (aHeap : Nat → Nat → Nat) (NV NI : Nat)
    (ms : List meshlet) (st : List Nat) :
    convert_for_gpu_usage_cached_redirected aHeap ⟨.serialize, st⟩ ms =
      .ok (convert_for_gpu_usage_redirected aHeap ms,
        ⟨.serialize,
          st ++ (((convert_for_gpu_usage_redirected aHeap ms).1.length ::
              written redirected_gpu_data_entries (convert_for_gpu_usage_redirected aHeap ms).1)
            ++ pool_entries (convert_for_gpu_usage_redirected aHeap ms).2)⟩) ∧
    (∀ res, convert_for_gpu_usage_fixed NV NI ms = .ok res →
      convert_for_gpu_usage_cached_fixed NV NI ⟨.serialize, st⟩ ms =
        .ok (res, ⟨.serialize, st ++ res.1.length :: written (gpu_data_entries NI) res.1⟩)) ∧
    (∀ e, convert_for_gpu_usage_fixed NV NI ms = .error e →
      convert_for_gpu_usage_cached_fixed NV NI ⟨.serialize, st⟩ ms = .error e) := by
  refine ⟨cached_redirected_serialize aHeap st ms, ?_, ?_⟩
  · intro res hres
    unfold convert_for_gpu_usage_cached_fixed
    simp only
    rw [hres]
    simp only
    rw [archive_vector_serialize (serialize_meshlet_gpu_data NV NI) (gpu_data_entries NI) _
      (serialize_gpu_data_serialize NV NI)]
  · intro e he
    unfold convert_for_gpu_usage_cached_fixed
    simp only
    rw [he]

/-- C8 witness: `[triangle_meshlet]` packed with `NV = 4`, `NI = 6` through a serializer in
serialize mode whose stream is empty. -/
theorem C8_witness :
    convert_for_gpu_usage_cached_fixed 4 6 ⟨.serialize, []⟩ [triangle_meshlet] =
      .ok (([⟨[20, 21, 22, 0], [0, 1, 2, 0, 0, 0], 3, 1⟩], none),
        ⟨.serialize,
          [1, 20, 0, 0, 0, 21, 0, 0, 0, 22, 0, 0, 0, 0, 0, 0, 0, 20, 0, 0, 0, 21, 0, 3, 1]⟩) :=
  (C8_serialize_mode_returns_packer_result example_heap 4 6 [triangle_meshlet] []).2.1
    ([⟨[20, 21, 22, 0], [0, 1, 2, 0, 0, 0], 3, 1⟩], none) rfl

/-- C9: deserialize mode of the cache adapter does not depend on the CPU-form meshlets. For
every serializer state in deserialize mode and every two meshlet sequences `a` and `b`
(and whatever the host memory behind their vectors), `convert_for_gpu_usage_cached` returns
the same for `a` as for `b`, for both layouts; the result is what archiving an empty record
vector, and for the redirected layout then an empty optional pool, reads from the
serializer. -/
theorem C9_deserialize_mode_ignores_meshlets (NV NI : Nat) (aHeap bHeap : Nat → Nat → Nat)
    (st : List Nat) (a b : List meshlet) :
    convert_for_gpu_usage_cached_fixed NV NI ⟨.deserialize, st⟩ a =
      convert_for_gpu_usage_cached_fixed NV NI ⟨.deserialize, st⟩ b ∧
    convert_for_gpu_usage_cached_redirected aHeap ⟨.deserialize, st⟩ a =
      convert_for_gpu_usage_cached_redirected bHeap ⟨.deserialize, st⟩ b ∧
    convert_for_gpu_usage_cached_fixed NV NI ⟨.deserialize, st⟩ a =
      (match serializer.archive_vector (serialize_meshlet_gpu_data NV NI)
          (meshlet_gpu_data.zero NV NI) ⟨.deserialize, st⟩ [] with
        | .error e => .error e
        | .ok (recs, s1) => .ok ((recs, none), s1)) ∧
    convert_for_gpu_usage_cached_redirected aHeap ⟨.deserialize, st⟩ a =
      (match serializer.archive_vector serialize_meshlet_redirected_gpu_data ⟨0, 0, 0⟩
          ⟨.deserialize, st⟩ [] with
        | .error e => .error e
        | .ok (recs, s1) =>
          match s1.archive_pool none with
          | .error e => .error e
          | .ok (pool, s2) => .ok ((recs, pool), s2)) :=
  ⟨rfl, rfl, rfl, rfl⟩

/-! ## Partitioner -/

/-- C10, as stated, fails: called with mesh index `3` and a callback that returns a meshlet
without mesh index, `divide_indexed_geometry_into_meshlets` returns that meshlet still
without mesh index. The function assigns `mModel` only. -/
theorem C10_counterexample :
    ∃ out,
      divide_indexed_geometry_into_meshlets ([] : List Unit) [0, 1, 2] other_model (some 3)
        64 378 fixed_output_division = .ok out ∧
      out.map (fun m => m.mMeshIndex) = [none] ∧
      out.map (fun m => m.mModel) = [other_model.enable_shared_ownership] :=
  ⟨_, rfl, rfl, rfl⟩

/-- C10 (amended): post-hoc stamping by the partitioner. For every strategy of one of the two
admissible shapes and every input, the call returns, and each returned meshlet has its model
set to the model passed to the call (with shared ownership enabled), whatever the strategy
wrote into that field; the mesh index of each returned meshlet is the one the strategy
wrote, whether or not a mesh index is passed to the call. -/
theorem C10_partitioner_stamps_the_model {V : Type} (aVertices : List V)
    (aIndices : List Nat) (aModel : model) (aMeshIndex : Option mesh_index_t)
    (aMaxVertices aMaxIndices : Nat)
    (f : List Nat → model_t → Option mesh_index_t → Nat → Nat → List meshlet)
    (g : List V → List Nat → model_t → Option mesh_index_t → Nat → Nat → List meshlet) :
    (∃ out,
      divide_indexed_geometry_into_meshlets aVertices aIndices aModel aMeshIndex
        aMaxVertices aMaxIndices (.indices_only f) = .ok out ∧
      (∀ m ∈ out, m.mModel = aModel.enable_shared_ownership) ∧
      out.map (fun m => m.mMeshIndex) =
        (f aIndices aModel.enable_shared_ownership.get aMeshIndex aMaxVertices
          aMaxIndices).map (fun m => m.mMeshIndex)) ∧
    (∃ out,
      divide_indexed_geometry_into_meshlets aVertices aIndices aModel aMeshIndex
        aMaxVertices aMaxIndices (.vertices_and_indices g) = .ok out ∧
      (∀ m ∈ out, m.mModel = aModel.enable_shared_ownership) ∧
      out.map (fun m => m.mMeshIndex) =
        (g aVertices aIndices aModel.enable_shared_ownership.get aMeshIndex aMaxVertices
          aMaxIndices).map (fun m => m.mMeshIndex)) := by
  constructor
  · refine ⟨_, rfl, ?_, ?_⟩
    · intro m hm
      rw [List.mem_map] at hm
      obtain ⟨m0, _, rfl⟩ := hm
      rfl
    · rw [List.map_map]
      rfl
  · refine ⟨_, rfl, ?_, ?_⟩
    · intro m hm
      rw [List.mem_map] at hm
      obtain ⟨m0, _, rfl⟩ := hm
      rfl
    · rw [List.map_map]
      rfl

/-! ## Packer: empty input, record counts, slicing the pool -/

/-- C11: for the empty meshlet sequence both layouts return an empty record sequence and
raise no error, and the fixed layout returns no pool; but the redirected layout returns no
pool either, where the claim (and the doc comment of `convert_for_gpu_usage`: "If the
indirect representation is used, the meshlet data will also be returned") expects a pool
that is present and empty. The pool is given its value inside the loop body only. -/
theorem C11_empty_input_returns_no_pool (NV NI : Nat) (aHeap : Nat → Nat → Nat) :
    convert_for_gpu_usage_fixed NV NI [] = .ok ([], none) ∧
    convert_for_gpu_usage_redirected aHeap [] = ([], none) ∧
    (convert_for_gpu_usage_redirected aHeap []).2 ≠ some [] :=
  ⟨rfl, rfl, fun h => by cases h⟩

/-- C12, as stated, fails: the redirected record of `wide_meshlet` (`vertexCount = 256`)
has vertex count `0`, and the redirected record of `long_meshlet` (`indexCount / 3 = 256`)
has primitive count `0`. The members `mVertexCount` and `mPrimitiveCount` of
`meshlet_redirected_gpu_data` are `uint8_t`. -/
theorem C12_counterexample :
    (wide_meshlet.mVertexCount = 256 ∧
      ∃ r, (convert_for_gpu_usage_redirected example_heap [wide_meshlet]).1[0]? = some r ∧
        r.mVertexCount = 0) ∧
    (long_meshlet.mIndexCount / 3 = 256 ∧
      ∃ r, (convert_for_gpu_usage_redirected example_heap [long_meshlet]).1[0]? = some r ∧
        r.mPrimitiveCount = 0) :=
  ⟨⟨rfl, _, redirected_record_at example_heap [wide_meshlet] 0 wide_meshlet rfl, rfl⟩,
   ⟨rfl, _, redirected_record_at example_heap [long_meshlet] 0 long_meshlet rfl, rfl⟩⟩

/-- C12 (amended): redirected packing has no static capacity and returns one record per
meshlet, whatever the meshlets' sizes. For every meshlet sequence and every meshlet `i` in
it, the redirected record `i` has vertex count equal to `vertexCount` modulo 256 and
primitive count equal to `indexCount / 3` modulo 256 (both are 8-bit members): they equal
`vertexCount` and `indexCount / 3` whenever these are below 256. -/
theorem C12_redirected_records_carry_counts (aHeap : Nat → Nat → Nat) (ms : List meshlet) :
    (convert_for_gpu_usage_redirected aHeap ms).1.length = ms.length ∧
    ∀ (i : Nat) (m : meshlet), ms[i]? = some m →
      ∃ r, (convert_for_gpu_usage_redirected aHeap ms).1[i]? = some r ∧
        r.mVertexCount = m.mVertexCount % 256 ∧
        r.mPrimitiveCount = m.mIndexCount / 3 % 256 ∧
        (m.mVertexCount < 256 → r.mVertexCount = m.mVertexCount) ∧
        (m.mIndexCount / 3 < 256 → r.mPrimitiveCount = m.mIndexCount / 3) := by
  refine ⟨redirected_records_length aHeap ms, ?_⟩
  intro i m hm
  exact ⟨_, redirected_record_at aHeap ms i m hm, rfl, rfl,
    fun h => Nat.mod_eq_of_lt h, fun h => Nat.mod_eq_of_lt h⟩

/-- C12 witness: the record of `triangle_meshlet`, the second of two meshlets. -/
theorem C12_witness :
    ∃ r, (convert_for_gpu_usage_redirected example_heap
        [quad_meshlet, triangle_meshlet]).1[1]? = some r ∧
      r.mVertexCount = triangle_meshlet.mVertexCount % 256 ∧
      r.mPrimitiveCount = triangle_meshlet.mIndexCount / 3 % 256 ∧
      (triangle_meshlet.mVertexCount < 256 → r.mVertexCount = triangle_meshlet.mVertexCount) ∧
      (triangle_meshlet.mIndexCount / 3 < 256 →
        r.mPrimitiveCount = triangle_meshlet.mIndexCount / 3) :=
  (C12_redirected_records_carry_counts example_heap [quad_meshlet, triangle_meshlet]).2
    1 triangle_meshlet rfl

/-- C13, as stated, fails: `triangle_meshlet` has `vertexCount ≤ 255`, `indexCount ≤ 765`,
`indexCount` a multiple of 3 and list lengths equal to the counts, but in
`[huge_vertex_meshlet, triangle_meshlet]` its stored `mDataOffset` is `2 ^ 32` narrowed to
`uint32_t`, which is `0`. The pool range computed from the stored record fields is
`[0 + 3, 0 + 3 + 1)`; it holds word `3` of the pool, a vertex index of the first meshlet,
not the packed-index word written for `triangle_meshlet`. -/
theorem C13_counterexample :
    (∀ m ∈ [huge_vertex_meshlet, triangle_meshlet],
        m.in_range ∧ m.mVertices.length = m.mVertexCount) ∧
    triangle_meshlet.mVertexCount ≤ 255 ∧ triangle_meshlet.mIndexCount ≤ 765 ∧
    triangle_meshlet.mIndexCount % 3 = 0 ∧
    triangle_meshlet.mIndices.length = triangle_meshlet.mIndexCount ∧
    ¬ (∃ r pool,
        (convert_for_gpu_usage_redirected example_heap
          [huge_vertex_meshlet, triangle_meshlet]).1[1]? = some r ∧
        (convert_for_gpu_usage_redirected example_heap
          [huge_vertex_meshlet, triangle_meshlet]).2 = some pool ∧
        (pool.drop (r.mDataOffset + r.mVertexCount)).take ((3 * r.mPrimitiveCount + 3) / 4) =
          index_groups (example_heap 1) triangle_meshlet) := by
  refine ⟨?_, by decide, by decide, by decide, by decide, ?_⟩
  · intro m hm
    simp only [List.mem_cons, List.mem_singleton, List.not_mem_nil, or_false] at hm
    rcases hm with rfl | rfl
    · exact huge_vertex_meshlet_in_range
    · decide
  · rintro ⟨r, pool, hr, hp, hslice⟩
    have hoff := huge_vertex_next_offset example_heap triangle_meshlet r hr
    have hrec := redirected_record_at example_heap [huge_vertex_meshlet, triangle_meshlet] 1
      triangle_meshlet rfl
    rw [hrec] at hr
    have hvc : r.mVertexCount = 3 := by
      rw [← Option.some.inj hr]
      rfl
    have hpc : r.mPrimitiveCount = 1 := by
      rw [← Option.some.inj hr]
      rfl
    have hw := huge_vertex_pool_word example_heap triangle_meshlet pool hp 3 (by omega)
    have hgroups : index_groups (example_heap 1) triangle_meshlet = [4278321408] := by decide
    rw [hoff, hvc, hpc, hgroups] at hslice
    have h0 := congrArg (fun l : List Nat => l[0]?) hslice
    simp only [List.getElem?_take, List.getElem?_drop] at h0
    simp [hw] at h0

/-- C13 (amended): the redirected record alone suffices to slice the pool. For every meshlet
sequence whose pool stays below `2 ^ 32` words and every meshlet in it with
`vertexCount ≤ 255`, `indexCount ≤ 765`, `indexCount` a multiple of 3 and list lengths equal
to the counts: `ceil(3 * mPrimitiveCount / 4)` computed from the stored record equals the
`(indexCount + 3) / 4` words appended, the pool range
`[mDataOffset, mDataOffset + mVertexCount)` holds exactly the meshlet's vertex indices, and
the pool range `[mDataOffset + mVertexCount,
mDataOffset + mVertexCount + ceil(3 * mPrimitiveCount / 4))` holds exactly the packed-index
words written for the meshlet. -/
theorem C13_record_slices_the_pool (aHeap : Nat → Nat → Nat) (ms : List meshlet)
    (hpool : ∀ pool, (convert_for_gpu_usage_redirected aHeap ms).2 = some pool →
      pool.length < 4294967296)
    (i : Nat) (m : meshlet) (hm : ms[i]? = some m)
    (hv : m.mVertexCount ≤ 255) (hi : m.mIndexCount ≤ 765) (h3 : m.mIndexCount % 3 = 0)
    (hvl : m.mVertices.length = m.mVertexCount) (_hil : m.mIndices.length = m.mIndexCount) :
    ∃ r pool,
      (convert_for_gpu_usage_redirected aHeap ms).1[i]? = some r ∧
      (convert_for_gpu_usage_redirected aHeap ms).2 = some pool ∧
      (3 * r.mPrimitiveCount + 3) / 4 = (m.mIndexCount + 3) / 4 ∧
      (index_groups (aHeap i) m).length = (m.mIndexCount + 3) / 4 ∧
      (pool.drop r.mDataOffset).take r.mVertexCount = m.mVertices ∧
      (pool.drop (r.mDataOffset + r.mVertexCount)).take ((3 * r.mPrimitiveCount + 3) / 4) =
        index_groups (aHeap i) m := by
  obtain ⟨rs, ps, _, h2, _⟩ := redirected_layout aHeap ms i m hm
  have hb := redirected_block_bound aHeap ms hpool i m hm
  have hcount : index_group_count m = (m.mIndexCount + 3) / 4 :=
    index_group_count_eq m (by omega)
  have hglen : (index_groups (aHeap i) m).length = (m.mIndexCount + 3) / 4 := by
    rw [index_groups_length, hcount]
  have hoff : (pool_of (redirected_state aHeap ms i)).length % 4294967296 =
      (pool_of (redirected_state aHeap ms i)).length := Nat.mod_eq_of_lt (by omega)
  have hvc : m.mVertexCount % 256 = m.mVertexCount := Nat.mod_eq_of_lt (by omega)
  have hpc : (3 * (m.mIndexCount / 3 % 256) + 3) / 4 = (m.mIndexCount + 3) / 4 := by
    have hsmall : m.mIndexCount / 3 % 256 = m.mIndexCount / 3 := Nat.mod_eq_of_lt (by omega)
    have hthree : 3 * (m.mIndexCount / 3) = m.mIndexCount := by omega
    rw [hsmall, hthree]
  refine ⟨_, _, redirected_record_at aHeap ms i m hm, h2, hpc, hglen, ?_, ?_⟩
  · simp only
    rw [hoff, hvc, List.append_assoc, List.append_assoc, List.drop_left,
      List.take_left' hvl]
  · simp only
    rw [hoff, hvc, hpc, List.append_assoc,
      List.drop_left' (by rw [List.length_append, hvl]), List.take_left' hglen]

/-- C13 witness: the second of two copies of `triangle_meshlet`. -/
theorem C13_witness :
    ∃ r pool,
      (convert_for_gpu_usage_redirected example_heap
        [triangle_meshlet, triangle_meshlet]).1[1]? = some r ∧
      (convert_for_gpu_usage_redirected example_heap
        [triangle_meshlet, triangle_meshlet]).2 = some pool ∧
      (3 * r.mPrimitiveCount + 3) / 4 = (triangle_meshlet.mIndexCount + 3) / 4 ∧
      (index_groups (example_heap 1) triangle_meshlet).length =
        (triangle_meshlet.mIndexCount + 3) / 4 ∧
      (pool.drop r.mDataOffset).take r.mVertexCount = triangle_meshlet.mVertices ∧
      (pool.drop (r.mDataOffset + r.mVertexCount)).take ((3 * r.mPrimitiveCount + 3) / 4) =
        index_groups (example_heap 1) triangle_meshlet :=
  C13_record_slices_the_pool example_heap [triangle_meshlet, triangle_meshlet]
    (by
      have hres : (convert_for_gpu_usage_redirected example_heap
          [triangle_meshlet, triangle_meshlet]).2 =
          some [20, 21, 22, 4278321408, 20, 21, 22, 4278321408] := by decide
      intro pool h
      rw [hres] at h
      cases h
      decide)
    1 triangle_meshlet rfl (by decide) (by decide) (by decide) (by decide) (by decide)

/-! ## Redirected packing: growth of the pool and reads behind the local indices -/

/-- C18, as stated, fails: in `[huge_vertex_meshlet, triangle_meshlet]` the offsets recorded
for the two meshlets are both `0` (the second is `2 ^ 32` narrowed to `uint32_t`), so their
difference is `0`, not `length(mVertices[0]) + (mIndexCount[0] + 3) / 4 = 4294967296`. -/
theorem C18_counterexample :
    (∀ m ∈ [huge_vertex_meshlet, triangle_meshlet],
        m.in_range ∧ m.mVertices.length = m.mVertexCount) ∧
    ¬ (∃ r0 r1,
        (convert_for_gpu_usage_redirected example_heap
          [huge_vertex_meshlet, triangle_meshlet]).1[0]? = some r0 ∧
        (convert_for_gpu_usage_redirected example_heap
          [huge_vertex_meshlet, triangle_meshlet]).1[1]? = some r1 ∧
        r1.mDataOffset - r0.mDataOffset =
          huge_vertex_meshlet.mVertices.length + (huge_vertex_meshlet.mIndexCount + 3) / 4) := by
  constructor
  · intro m hm
    simp only [List.mem_cons, List.mem_singleton, List.not_mem_nil, or_false] at hm
    rcases hm with rfl | rfl
    · exact huge_vertex_meshlet_in_range
    · decide
  · rintro ⟨r0, r1, _, hr1, h⟩
    have hoff := huge_vertex_next_offset example_heap triangle_meshlet r1 hr1
    rw [hoff, Nat.zero_sub, huge_vertex_meshlet_in_range.2] at h
    revert h
    decide

/-- C18 (amended): in redirected packing the pool grows per meshlet by the length of the
meshlet's vertex list, not by its `vertexCount` field. For every meshlet sequence whose
pool stays below `2 ^ 32` words and every meshlet `i` in it: every entry of the vertex list,
also at positions `≥ vertexCount`, is in the pool from `offset[i]` on, the packed-index
words start at `offset[i] + length(mVertices[i])`, and if there is a next meshlet then
`offset[i+1] - offset[i] = length(mVertices[i]) + (mIndexCount[i] + 3) / 4`, the quotient
being evaluated in `uint32_t` as the source does (`index_group_count`). -/
theorem C18_pool_grows_by_the_vertex_list (aHeap : Nat → Nat → Nat) (ms : List meshlet)
    (hpool : ∀ pool, (convert_for_gpu_usage_redirected aHeap ms).2 = some pool →
      pool.length < 4294967296)
    (i : Nat) (m : meshlet) (hm : ms[i]? = some m) :
    ∃ r pool,
      (convert_for_gpu_usage_redirected aHeap ms).1[i]? = some r ∧
      (convert_for_gpu_usage_redirected aHeap ms).2 = some pool ∧
      (∀ k, k < m.mVertices.length → pool[r.mDataOffset + k]? = m.mVertices[k]?) ∧
      (∀ g, g < index_group_count m →
        pool[r.mDataOffset + m.mVertices.length + g]? =
          some (index_group (aHeap i) m.mIndices g)) ∧
      (m.mIndexCount + 3 < 4294967296 → index_group_count m = (m.mIndexCount + 3) / 4) ∧
      (∀ r1, (convert_for_gpu_usage_redirected aHeap ms).1[i + 1]? = some r1 →
        r1.mDataOffset = r.mDataOffset + m.mVertices.length + index_group_count m ∧
        r1.mDataOffset - r.mDataOffset = m.mVertices.length + index_group_count m) := by
  obtain ⟨rs, ps, _, h2, _⟩ := redirected_layout aHeap ms i m hm
  have hb := redirected_block_bound aHeap ms hpool i m hm
  have hoff : (pool_of (redirected_state aHeap ms i)).length % 4294967296 =
      (pool_of (redirected_state aHeap ms i)).length := Nat.mod_eq_of_lt (by omega)
  refine ⟨_, _, redirected_record_at aHeap ms i m hm, h2, ?_, ?_,
    index_group_count_eq m, ?_⟩
  · intro k hk
    simp only
    rw [hoff, List.append_assoc, List.append_assoc,
      List.getElem?_append_right (Nat.le_add_right _ _), Nat.add_sub_cancel_left,
      List.getElem?_append_left hk]
  · intro g hg
    simp only
    have h1 : (pool_of (redirected_state aHeap ms i) ++ m.mVertices).length ≤
        (pool_of (redirected_state aHeap ms i)).length + m.mVertices.length + g := by
      rw [List.length_append]
      omega
    rw [hoff, List.append_assoc (pool_of (redirected_state aHeap ms i) ++ m.mVertices),
      List.getElem?_append_right h1, List.length_append]
    have h3 : (pool_of (redirected_state aHeap ms i)).length + m.mVertices.length + g -
        ((pool_of (redirected_state aHeap ms i)).length + m.mVertices.length) = g := by
      omega
    rw [h3, List.getElem?_append_left (by rw [index_groups_length]; exact hg)]
    exact index_groups_at (aHeap i) m g hg
  · intro r1 hr1
    have hi1 : i + 1 < ms.length := by
      rcases Nat.lt_or_ge (i + 1) ms.length with h | h
      · exact h
      · rw [List.getElem?_eq_none (by rw [redirected_records_length]; exact h)] at hr1
        cases hr1
    have hm1 : ms[i + 1]? = some ms[i + 1] := List.getElem?_eq_getElem hi1
    have hb1 := redirected_block_bound aHeap ms hpool (i + 1) _ hm1
    have hs := congrArg List.length (redirected_state_pool_succ aHeap ms i m hm)
    simp only [List.length_append, index_groups_length] at hs
    rw [redirected_record_at aHeap ms (i + 1) _ hm1] at hr1
    rw [← Option.some.inj hr1]
    simp only
    rw [hoff, Nat.mod_eq_of_lt (by omega), hs]
    omega

/-- C18 witness: the first of the two meshlets `[quad_meshlet, triangle_meshlet]`. -/
theorem C18_witness :
    ∃ r pool,
      (convert_for_gpu_usage_redirected example_heap
        [quad_meshlet, triangle_meshlet]).1[0]? = some r ∧
      (convert_for_gpu_usage_redirected example_heap
        [quad_meshlet, triangle_meshlet]).2 = some pool ∧
      (∀ k, k < quad_meshlet.mVertices.length →
        pool[r.mDataOffset + k]? = quad_meshlet.mVertices[k]?) ∧
      (∀ g, g < index_group_count quad_meshlet →
        pool[r.mDataOffset + quad_meshlet.mVertices.length + g]? =
          some (index_group (example_heap 0) quad_meshlet.mIndices g)) ∧
      (quad_meshlet.mIndexCount + 3 < 4294967296 →
        index_group_count quad_meshlet = (quad_meshlet.mIndexCount + 3) / 4) ∧
      (∀ r1, (convert_for_gpu_usage_redirected example_heap
          [quad_meshlet, triangle_meshlet]).1[0 + 1]? = some r1 →
        r1.mDataOffset =
          r.mDataOffset + quad_meshlet.mVertices.length + index_group_count quad_meshlet ∧
        r1.mDataOffset - r.mDataOffset =
          quad_meshlet.mVertices.length + index_group_count quad_meshlet) :=
  C18_pool_grows_by_the_vertex_list example_heap [quad_meshlet, triangle_meshlet]
    (by
      have hres : (convert_for_gpu_usage_redirected example_heap
          [quad_meshlet, triangle_meshlet]).2 =
          some [10, 11, 12, 13, 33685760, 769, 20, 21, 22, 4278321408] := by decide
      intro pool h
      rw [hres] at h
      cases h
      decide)
    0 quad_meshlet rfl

theorem index_byte_inside_eq (t1 t2 : Nat → Nat) (aIndices : List Nat) (k : Nat)
    (hk : k < aIndices.length) : index_byte t1 aIndices k = index_byte t2 aIndices k := by
  unfold index_byte
  rw [dif_pos hk, dif_pos hk]

/-- When every group lies inside the local-index vector, the appended words do not depend on
the memory behind it. -/
theorem index_groups_inside_eq (t1 t2 : Nat → Nat) (m : meshlet)
    (h : 4 * index_group_count m ≤ m.mIndices.length) :
    index_groups t1 m = index_groups t2 m := by
  unfold index_groups
  apply List.map_congr_left
  intro g hg
  rw [List.mem_range] at hg
  unfold index_group
  rw [index_byte_inside_eq t1 t2 _ (4 * g) (by omega),
    index_byte_inside_eq t1 t2 _ (4 * g + 1) (by omega),
    index_byte_inside_eq t1 t2 _ (4 * g + 2) (by omega),
    index_byte_inside_eq t1 t2 _ (4 * g + 3) (by omega)]

theorem redirected_fold_heap_eq (h1 h2 : Nat → Nat → Nat) (ms : List meshlet)
    (h : ∀ m ∈ ms, 4 * index_group_count m ≤ m.mIndices.length) :
    ∀ st, ms.foldl (redirected_entry h1) st = ms.foldl (redirected_entry h2) st := by
  induction ms with
  | nil => intro st; rfl
  | cons m rest ih =>
    intro st
    have hm := h m (List.mem_cons_self _ _)
    have he : redirected_entry h1 st m = redirected_entry h2 st m := by
      unfold redirected_entry
      rw [index_groups_inside_eq (h1 st.1.length) (h2 st.1.length) m hm]
    rw [List.foldl_cons, List.foldl_cons, he]
    exact ih (fun x hx => h x (List.mem_cons_of_mem _ hx)) _

/-- C19, as stated, fails: `triangle_meshlet` satisfies the data model (its local-index list
has exactly `indexCount = 3` entries), but the one word appended for its local indices is
read from bytes 0 to 3 of the list, and byte 3 lies behind the list: with `0` in the memory
behind the list the word is `131328`, with `255` it is `4278321408`. -/
theorem C19_counterexample :
    triangle_meshlet.in_range ∧
    triangle_meshlet.mIndices.length = triangle_meshlet.mIndexCount ∧
    (convert_for_gpu_usage_redirected (fun _ _ => 0) [triangle_meshlet]).2 =
      some [20, 21, 22, 131328] ∧
    (convert_for_gpu_usage_redirected (fun _ _ => 255) [triangle_meshlet]).2 =
      some [20, 21, 22, 4278321408] ∧
    convert_for_gpu_usage_redirected (fun _ _ => 0) [triangle_meshlet] ≠
      convert_for_gpu_usage_redirected (fun _ _ => 255) [triangle_meshlet] := by
  refine ⟨by decide, by decide, by decide, by decide, by decide⟩

/-- C19 (amended): redirected packing stays inside the local-index list when the index count
is a multiple of 4. For every meshlet sequence in which every meshlet's local-index list has
exactly `indexCount` entries and `indexCount` is a multiple of 4, every byte read for a
group lies at a position `<` the list's length, and the records and the pool are determined
by the input meshlets alone, whatever the memory behind the lists holds. (Otherwise the last
group reaches up to three bytes behind the list.) -/
theorem C19_reads_stay_inside_for_multiples_of_four (ms : List meshlet)
    (h : ∀ m ∈ ms, m.mIndices.length = m.mIndexCount ∧ m.mIndexCount % 4 = 0 ∧
      m.mIndexCount < 4294967296) :
    (∀ m ∈ ms, ∀ g, g < index_group_count m → 4 * g + 3 < m.mIndices.length) ∧
    ∀ aHeap bHeap : Nat → Nat → Nat,
      convert_for_gpu_usage_redirected aHeap ms = convert_for_gpu_usage_redirected bHeap ms := by
  have hcount : ∀ m ∈ ms, 4 * index_group_count m = m.mIndices.length := by
    intro m hm
    obtain ⟨h1, h2, h3⟩ := h m hm
    rw [index_group_count_eq m (by omega)]
    omega
  constructor
  · intro m hm g hg
    have := hcount m hm
    omega
  · intro aHeap bHeap
    exact redirected_fold_heap_eq aHeap bHeap ms
      (fun m hm => Nat.le_of_eq (hcount m hm)) _

/-- C19 witness: a meshlet with twelve local indices. -/
theorem C19_witness :
    twelve_index_meshlet.mIndices.length = twelve_index_meshlet.mIndexCount ∧
    twelve_index_meshlet.mIndexCount % 4 = 0 ∧
    convert_for_gpu_usage_redirected (fun _ _ => 0) [twelve_index_meshlet] =
      convert_for_gpu_usage_redirected (fun _ _ => 255) [twelve_index_meshlet] :=
  ⟨by decide, by decide,
    (C19_reads_stay_inside_for_multiples_of_four [twelve_index_meshlet] (by decide)).2
      (fun _ _ => 0) (fun _ _ => 255)⟩

/-! ## Partitioner: what the wrapper leaves unchanged -/

/-- C20: the partitioner wrapper changes nothing but the model. For every strategy of one of
the two admissible shapes and every input, `divide_indexed_geometry_into_meshlets` returns
as many meshlets as the strategy returned, in the same order, and each one's vertex list,
local-index list, `vertexCount`, `indexCount` and mesh index are exactly what the strategy
produced; the model is the model passed to the call (with shared ownership enabled). -/
theorem C20_partitioner_changes_only_the_model {V : Type} (aVertices : List V)
    (aIndices : List Nat) (aModel : model) (aMeshIndex : Option mesh_index_t)
    (aMaxVertices aMaxIndices : Nat)
    (f : List Nat → model_t → Option mesh_index_t → Nat → Nat → List meshlet)
    (g : List V → List Nat → model_t → Option mesh_index_t → Nat → Nat → List meshlet) :
    (∃ out,
      divide_indexed_geometry_into_meshlets aVertices aIndices aModel aMeshIndex
        aMaxVertices aMaxIndices (.indices_only f) = .ok out ∧
      out.length =
        (f aIndices aModel.enable_shared_ownership.get aMeshIndex aMaxVertices
          aMaxIndices).length ∧
      ∀ (i : Nat) (m : meshlet),
        (f aIndices aModel.enable_shared_ownership.get aMeshIndex aMaxVertices
          aMaxIndices)[i]? = some m →
        ∃ o, out[i]? = some o ∧
          o.mVertices = m.mVertices ∧ o.mIndices = m.mIndices ∧
          o.mVertexCount = m.mVertexCount ∧ o.mIndexCount = m.mIndexCount ∧
          o.mMeshIndex = m.mMeshIndex ∧ o.mModel = aModel.enable_shared_ownership) ∧
    (∃ out,
      divide_indexed_geometry_into_meshlets aVertices aIndices aModel aMeshIndex
        aMaxVertices aMaxIndices (.vertices_and_indices g) = .ok out ∧
      out.length =
        (g aVertices aIndices aModel.enable_shared_ownership.get aMeshIndex aMaxVertices
          aMaxIndices).length ∧
      ∀ (i : Nat) (m : meshlet),
        (g aVertices aIndices aModel.enable_shared_ownership.get aMeshIndex aMaxVertices
          aMaxIndices)[i]? = some m →
        ∃ o, out[i]? = some o ∧
          o.mVertices = m.mVertices ∧ o.mIndices = m.mIndices ∧
          o.mVertexCount = m.mVertexCount ∧ o.mIndexCount = m.mIndexCount ∧
          o.mMeshIndex = m.mMeshIndex ∧ o.mModel = aModel.enable_shared_ownership) := by
  constructor
  · refine ⟨_, rfl, by simp, ?_⟩
    intro i m hm
    refine ⟨{ m with mModel := aModel.enable_shared_ownership }, ?_, rfl, rfl, rfl, rfl,
      rfl, rfl⟩
    rw [List.getElem?_map, hm]
    rfl
  · refine ⟨_, rfl, by simp, ?_⟩
    intro i m hm
    refine ⟨{ m with mModel := aModel.enable_shared_ownership }, ?_, rfl, rfl, rfl, rfl,
      rfl, rfl⟩
    rw [List.getElem?_map, hm]
    rfl

/-! ## Unsupported record type -/

/-- C14: with an unsupported record type, `convert_for_gpu_usage_cached` fails with a logic
error for every serializer and every meshlet sequence, and `convert_for_gpu_usage` fails with
a logic error for every non-empty meshlet sequence; but for the empty meshlet sequence
`convert_for_gpu_usage` returns an empty record sequence and no pool instead of failing:
its `throw` stands inside the loop over the meshlets, whereas the `throw` of
`convert_for_gpu_usage_cached` stands outside any loop. -/
theorem C14_unsupported_type_passes_on_empty_input {T : Type} :
    (convert_for_gpu_usage_unsupported [] : Except failure (List T × Option (List Nat))) =
      .ok ([], none) ∧
    (∀ (m : meshlet) (rest : List meshlet),
      (convert_for_gpu_usage_unsupported (m :: rest) :
        Except failure (List T × Option (List Nat))) = .error failure.logic_error) ∧
    (∀ (s : serializer) (ms : List meshlet),
      (convert_for_gpu_usage_cached_unsupported s ms :
        Except failure ((List T × Option (List Nat)) × serializer)) =
          .error failure.logic_error) := by
  refine ⟨rfl, fun m rest => rfl, ?_⟩
  intro s ms
  obtain ⟨mode, stream⟩ := s
  cases mode with
  | deserialize => rfl
  | serialize =>
    cases ms with
    | nil => rfl
    | cons m rest => rfl

/-! ## Dividing models into meshlets -/

/-- C15: in per-mesh mode with a selection of two meshes, `divide_into_meshlets` does not
return the concatenation of the two partitioner outputs. The loop over the selected meshes
passes `std::move(model)` to `divide_indexed_geometry_into_meshlets` in its first iteration,
and its second iteration calls `model.get()` on the handle that was moved from, which holds
no model any more (`reset_after_move`). With a selection of one mesh, in combined mode and
for the empty list the call returns what the claim says; with a handle that stayed usable
after the move the two-mesh selection would return both outputs. -/
theorem C15_per_mesh_mode_uses_the_model_after_moving_it :
    divide_into_meshlets empty_accessor reset_after_move [(other_model, [0, 1])]
      fixed_output_division false 64 378 = .error failure.empty_model ∧
    divide_into_meshlets empty_accessor some [(other_model, [0, 1])]
      fixed_output_division false 64 378 =
        .ok [{ triangle_meshlet with mModel := other_model.enable_shared_ownership },
             { triangle_meshlet with mModel := other_model.enable_shared_ownership }] ∧
    divide_into_meshlets empty_accessor reset_after_move [(other_model, [0])]
      fixed_output_division false 64 378 =
        .ok [{ triangle_meshlet with mModel := other_model.enable_shared_ownership }] ∧
    divide_into_meshlets empty_accessor reset_after_move [(other_model, [0, 1])]
      fixed_output_division true 64 378 =
        .ok [{ triangle_meshlet with mModel := other_model.enable_shared_ownership }] ∧
    divide_into_meshlets empty_accessor reset_after_move []
      fixed_output_division false 64 378 = .ok [] ∧
    divide_into_meshlets empty_accessor reset_after_move [(other_model, [])]
      fixed_output_division false 64 378 = .ok [] :=
  ⟨rfl, rfl, rfl, rfl, rfl, rfl⟩

/-! ## Default divider -/

theorem vertex_position_le (v : Nat) (vs : List Nat) : vertex_position v vs ≤ vs.length := by
  induction vs with
  | nil => simp [vertex_position]
  | cons w ws ih =>
    unfold vertex_position
    split
    · simp
    · simp only [List.length_cons]
      omega

theorem vertex_position_getElem (v : Nat) (vs : List Nat)
    (h : vertex_position v vs < vs.length) : vs[vertex_position v vs]? = some v := by
  induction vs with
  | nil => simp at h
  | cons w ws ih =>
    unfold vertex_position at h ⊢
    split
    · rename_i hw
      simp [hw]
    · rename_i hw
      rw [if_neg hw] at h
      simp only [List.length_cons] at h
      rw [List.getElem?_cons_succ]
      exact ih (by omega)

theorem vertex_position_append (v : Nat) (vs x : List Nat)
    (h : vertex_position v vs < vs.length) :
    vertex_position v (vs ++ x) = vertex_position v vs := by
  induction vs with
  | nil => simp at h
  | cons w ws ih =>
    rw [List.cons_append]
    unfold vertex_position at h ⊢
    split
    · rfl
    · rename_i hw
      rw [if_neg hw] at h
      simp only [List.length_cons] at h
      rw [ih (by omega)]

theorem vertex_position_absent (v : Nat) (vs : List Nat)
    (h : ¬ vertex_position v vs < vs.length) :
    vertex_position v (vs ++ [v]) = vs.length := by
  induction vs with
  | nil => simp [vertex_position]
  | cons w ws ih =>
    rw [List.cons_append]
    unfold vertex_position at h ⊢
    split
    · rename_i hw
      rw [if_pos hw] at h
      simp at h
    · rename_i hw
      rw [if_neg hw] at h
      simp only [List.length_cons] at h
      rw [ih (by omega), List.length_cons]

/-- Using a vertex extends the vertex list by at most that vertex, and afterwards the vertex
has a position in the list. -/
theorem use_vertex_spec (vs : List Nat) (v : Nat) :
    (∃ x, use_vertex vs v = vs ++ x ∧ x.length ≤ 1) ∧
    vertex_position v (use_vertex vs v) < (use_vertex vs v).length := by
  unfold use_vertex
  split
  · rename_i h
    exact ⟨⟨[], by simp, by simp⟩, h⟩
  · rename_i h
    refine ⟨⟨[v], rfl, by simp⟩, ?_⟩
    rw [vertex_position_absent v vs h, List.length_append]
    simp

/-- A vertex that has a position in a vertex list keeps it when the list is extended, and
the list holds the vertex at that position. -/
theorem vertex_position_extend (v : Nat) (vs x : List Nat)
    (h : vertex_position v vs < vs.length) :
    vertex_position v (vs ++ x) < (vs ++ x).length ∧
    (vs ++ x)[vertex_position v (vs ++ x)]? = some v := by
  rw [vertex_position_append v vs x h]
  refine ⟨by rw [List.length_append]; omega, ?_⟩
  rw [List.getElem?_append_left h]
  exact vertex_position_getElem v vs h

theorem append_triangle_indices (o : List Nat × List Nat) (a b c : Nat) :
    (append_triangle o a b c).2 =
      o.2 ++ [vertex_position a (append_triangle o a b c).1 % 256,
        vertex_position b (append_triangle o a b c).1 % 256,
        vertex_position c (append_triangle o a b c).1 % 256] := rfl

/-- Appending a triangle extends the vertex list by at most three vertices, and afterwards
each of its three vertices has a position in the list, at which the list holds it. -/
theorem append_triangle_vertices (o : List Nat × List Nat) (a b c : Nat) :
    (∃ x, (append_triangle o a b c).1 = o.1 ++ x ∧ x.length ≤ 3) ∧
    (vertex_position a (append_triangle o a b c).1 < (append_triangle o a b c).1.length ∧
      (append_triangle o a b c).1[vertex_position a (append_triangle o a b c).1]? = some a) ∧
    (vertex_position b (append_triangle o a b c).1 < (append_triangle o a b c).1.length ∧
      (append_triangle o a b c).1[vertex_position b (append_triangle o a b c).1]? = some b) ∧
    (vertex_position c (append_triangle o a b c).1 < (append_triangle o a b c).1.length ∧
      (append_triangle o a b c).1[vertex_position c (append_triangle o a b c).1]? = some c) := by
  obtain ⟨⟨x1, h1, l1⟩, p1⟩ := use_vertex_spec o.1 a
  obtain ⟨⟨x2, h2, l2⟩, p2⟩ := use_vertex_spec (use_vertex o.1 a) b
  obtain ⟨⟨x3, h3, l3⟩, p3⟩ := use_vertex_spec (use_vertex (use_vertex o.1 a) b) c
  have hV : (append_triangle o a b c).1 = use_vertex (use_vertex (use_vertex o.1 a) b) c := rfl
  have e3 : (append_triangle o a b c).1 = use_vertex (use_vertex o.1 a) b ++ x3 := by
    rw [hV, h3]
  have e1 : (append_triangle o a b c).1 = use_vertex o.1 a ++ (x2 ++ x3) := by
    rw [e3, h2, List.append_assoc]
  refine ⟨⟨x1 ++ (x2 ++ x3), ?_, ?_⟩, ?_, ?_, ?_⟩
  · rw [e1, h1, List.append_assoc]
  · simp only [List.length_append]
    omega
  · rw [e1]
    exact vertex_position_extend a _ _ p1
  · rw [e3]
    exact vertex_position_extend b _ _ p2
  · rw [hV]
    exact ⟨p3, vertex_position_getElem c _ p3⟩

/-- The shape of the open meshlet after a triangle has been appended. -/
theorem append_triangle_shape (o : List Nat × List Nat) (a b c : Nat)
    (hj : ∀ j ∈ o.2, j < o.1.length) :
    (append_triangle o a b c).2.length = o.2.length + 3 ∧
    0 < (append_triangle o a b c).1.length ∧
    o.1.length ≤ (append_triangle o a b c).1.length ∧
    (append_triangle o a b c).1.length ≤ o.1.length + 3 ∧
    ∀ j ∈ (append_triangle o a b c).2, j < (append_triangle o a b c).1.length := by
  obtain ⟨⟨x, hx, lx⟩, ⟨pa, _⟩, ⟨pb, _⟩, ⟨pc, _⟩⟩ := append_triangle_vertices o a b c
  have hlen : (append_triangle o a b c).1.length = o.1.length + x.length := by
    rw [hx, List.length_append]
  refine ⟨?_, by omega, by omega, by omega, ?_⟩
  · rw [append_triangle_indices, List.length_append]
    rfl
  · intro j hjm
    rw [append_triangle_indices, List.mem_append] at hjm
    rcases hjm with h | h
    · have := hj j h
      omega
    · simp only [List.mem_cons, List.mem_singleton, List.not_mem_nil, or_false] at h
      have ha := Nat.mod_le (vertex_position a (append_triangle o a b c).1) 256
      have hb := Nat.mod_le (vertex_position b (append_triangle o a b c).1) 256
      have hc := Nat.mod_le (vertex_position c (append_triangle o a b c).1) 256
      rcases h with h | h | h <;> omega

theorem open_within_grown (maxV maxI : Nat) (o : List Nat × List Nat) (a b c : Nat)
    (ho : open_within maxV maxI o)
    (hfit : ¬ (maxV < (append_triangle o a b c).1.length ∨
      maxI < (append_triangle o a b c).2.length)) :
    open_within maxV maxI (append_triangle o a b c) := by
  obtain ⟨_, _, h3, _, hj⟩ := ho
  obtain ⟨s1, s2, _, _, s5⟩ := append_triangle_shape o a b c hj
  refine ⟨by omega, by omega, by omega, fun _ => s2, s5⟩

theorem open_within_first (maxV maxI : Nat) (a b c : Nat) (hV : 3 ≤ maxV) (hI : 3 ≤ maxI) :
    open_within maxV maxI (append_triangle ([], []) a b c) := by
  obtain ⟨s1, s2, _, s4, s5⟩ := append_triangle_shape ([], []) a b c (by simp)
  simp only [List.length_nil] at s1 s4
  refine ⟨by omega, by omega, by omega, fun _ => s2, s5⟩

theorem open_within_nil (maxV maxI : Nat) : open_within maxV maxI ([], []) := by
  simp [open_within]

theorem emit_open_within (aMeshIndex : Option mesh_index_t) (maxV maxI : Nat)
    (o : List Nat × List Nat) (result : List meshlet) (ho : open_within maxV maxI o)
    (hr : ∀ m ∈ result, m.within maxV maxI) :
    ∀ m ∈ emit_open aMeshIndex o result, m.within maxV maxI := by
  unfold emit_open
  split
  · exact hr
  · rename_i hne
    intro m hm
    rw [List.mem_append, List.mem_singleton] at hm
    rcases hm with h | h
    · exact hr m h
    · obtain ⟨h1, h2, h3, h4, h5⟩ := ho
      have hpos : 0 < o.2.length := by omega
      subst h
      refine ⟨h4 hpos, h1, hpos, h2, h3, ?_⟩
      intro j hjm
      exact h5 j (List.mem_of_mem_take hjm)

theorem divider_walk_within (aMeshIndex : Option mesh_index_t) (maxV maxI : Nat)
    (hV : 3 ≤ maxV) (hI : 3 ≤ maxI) :
    ∀ (stream : List Nat) (o : List Nat × List Nat) (result : List meshlet),
      open_within maxV maxI o → (∀ m ∈ result, m.within maxV maxI) →
      ∀ m ∈ divider_walk aMeshIndex maxV maxI stream o result, m.within maxV maxI
  | [], o, result, ho, hr => by
    rw [divider_walk]
    · exact emit_open_within aMeshIndex maxV maxI o result ho hr
    · intro a b c rest h
      cases h
  | [_], o, result, ho, hr => by
    rw [divider_walk]
    · exact emit_open_within aMeshIndex maxV maxI o result ho hr
    · intro a b c rest h
      cases h
  | [_, _], o, result, ho, hr => by
    rw [divider_walk]
    · exact emit_open_within aMeshIndex maxV maxI o result ho hr
    · intro a b c rest h
      cases h
  | a :: b :: c :: rest, o, result, ho, hr => by
    rw [divider_walk]
    split
    · exact divider_walk_within aMeshIndex maxV maxI hV hI rest _ _
        (open_within_first maxV maxI a b c hV hI)
        (emit_open_within aMeshIndex maxV maxI o result ho hr)
    · rename_i hfit
      exact divider_walk_within aMeshIndex maxV maxI hV hI rest _ _
        (open_within_grown maxV maxI o a b c ho hfit) hr

/-- C16: capacity invariant of the default divider. For every index stream whose length is a
multiple of 3 and every `maxVertices ≥ 3`, `maxIndices ≥ 3`, every meshlet produced by
`basic_meshlets_divider` satisfies `0 < vertexCount ≤ maxVertices`,
`0 < indexCount ≤ maxIndices`, `indexCount % 3 = 0`, and every one of its first `indexCount`
local indices is `< vertexCount`. -/
theorem C16_default_divider_capacity_invariant (aIndices : List Nat) (aModel : model_t)
    (aMeshIndex : Option mesh_index_t) (aMaxVertices aMaxIndices : Nat)
    (_hlen : aIndices.length % 3 = 0) (hV : 3 ≤ aMaxVertices) (hI : 3 ≤ aMaxIndices) :
    ∀ m ∈ basic_meshlets_divider aIndices aModel aMeshIndex aMaxVertices aMaxIndices,
      0 < m.mVertexCount ∧ m.mVertexCount ≤ aMaxVertices ∧
      0 < m.mIndexCount ∧ m.mIndexCount ≤ aMaxIndices ∧ m.mIndexCount % 3 = 0 ∧
      ∀ j ∈ m.mIndices.take m.mIndexCount, j < m.mVertexCount :=
  divider_walk_within aMeshIndex aMaxVertices aMaxIndices hV hI aIndices ([], []) []
    (open_within_nil aMaxVertices aMaxIndices) (by simp)

/-- C16 witness: twelve indices (four triangles over the vertices 0 to 7), `maxVertices = 6`,
`maxIndices = 9`: the divider produces two meshlets. -/
theorem C16_witness :
    (basic_meshlets_divider [0, 1, 2, 2, 1, 3, 4, 5, 6, 6, 5, 7] 0 none 6 9).length = 2 ∧
    ∀ m ∈ basic_meshlets_divider [0, 1, 2, 2, 1, 3, 4, 5, 6, 6, 5, 7] 0 none 6 9,
      0 < m.mVertexCount ∧ m.mVertexCount ≤ 6 ∧
      0 < m.mIndexCount ∧ m.mIndexCount ≤ 9 ∧ m.mIndexCount % 3 = 0 ∧
      ∀ j ∈ m.mIndices.take m.mIndexCount, j < m.mVertexCount :=
  ⟨by decide,
    C16_default_divider_capacity_invariant [0, 1, 2, 2, 1, 3, 4, 5, 6, 6, 5, 7] 0 none 6 9
      (by decide) (by decide) (by decide)⟩

theorem resolve_close_meshlet (aMeshIndex : Option mesh_index_t)
    (o : List Nat × List Nat) : resolve (close_meshlet aMeshIndex o) = resolve_open o := by
  simp [resolve, close_meshlet, resolve_open]

theorem resolved_stream_append (xs ys : List meshlet) :
    resolved_stream (xs ++ ys) = resolved_stream xs ++ resolved_stream ys := by
  induction xs with
  | nil => rfl
  | cons m rest ih => simp [resolved_stream, ih, List.append_assoc]

theorem resolved_stream_emit_open (aMeshIndex : Option mesh_index_t)
    (o : List Nat × List Nat) (result : List meshlet) :
    resolved_stream (emit_open aMeshIndex o result) =
      resolved_stream result ++ resolve_open o := by
  unfold emit_open
  split
  · rename_i h
    have h0 : o.2 = [] := List.length_eq_zero.mp h
    simp [resolve_open, h0]
  · rw [resolved_stream_append]
    simp [resolved_stream, resolve_close_meshlet]

/-- Appending a triangle adds its three vertex indices to what the open meshlet resolves to,
as long as the vertex list has at most 256 entries, so that every position fits a byte. -/
theorem append_triangle_resolve (o : List Nat × List Nat) (a b c : Nat)
    (hj : ∀ j ∈ o.2, j < o.1.length) (hsmall : (append_triangle o a b c).1.length ≤ 256) :
    resolve_open (append_triangle o a b c) = resolve_open o ++ [some a, some b, some c] := by
  obtain ⟨⟨x, hx, _⟩, ⟨pa, ga⟩, ⟨pb, gb⟩, ⟨pc, gc⟩⟩ := append_triangle_vertices o a b c
  have hold : o.2.map (fun j => (append_triangle o a b c).1[j]?) =
      o.2.map (fun j => o.1[j]?) := by
    apply List.map_congr_left
    intro j hjm
    rw [hx, List.getElem?_append_left (hj j hjm)]
  unfold resolve_open
  rw [append_triangle_indices, List.map_append, hold]
  simp only [List.map_cons, List.map_nil]
  rw [Nat.mod_eq_of_lt (by omega), Nat.mod_eq_of_lt (by omega), Nat.mod_eq_of_lt (by omega),
    ga, gb, gc]

theorem divider_walk_resolves (aMeshIndex : Option mesh_index_t) (maxV maxI : Nat)
    (hsmall : maxV ≤ 256) :
    ∀ (stream : List Nat) (o : List Nat × List Nat) (result : List meshlet),
      stream.length % 3 = 0 → (∀ j ∈ o.2, j < o.1.length) →
      resolved_stream (divider_walk aMeshIndex maxV maxI stream o result) =
        resolved_stream result ++ resolve_open o ++ stream.map some
  | [], o, result, _, _ => by
    rw [divider_walk]
    · rw [resolved_stream_emit_open]
      simp
    · intro a b c rest h
      cases h
  | [_], _, _, hlen, _ => by
    simp at hlen
  | [_, _], _, _, hlen, _ => by
    simp at hlen
  | a :: b :: c :: rest, o, result, hlen, hj => by
    have hrest : rest.length % 3 = 0 := by
      simp only [List.length_cons] at hlen
      omega
    rw [divider_walk]
    split
    · obtain ⟨_, _, _, s4, s5⟩ := append_triangle_shape ([], []) a b c (by simp)
      simp only [List.length_nil] at s4
      rw [divider_walk_resolves aMeshIndex maxV maxI hsmall rest _ _ hrest s5,
        resolved_stream_emit_open,
        append_triangle_resolve ([], []) a b c (by simp) (by omega)]
      simp [resolve_open, List.append_assoc]
    · rename_i hfit
      obtain ⟨_, _, _, _, s5⟩ := append_triangle_shape o a b c hj
      rw [divider_walk_resolves aMeshIndex maxV maxI hsmall rest _ _ hrest s5,
        append_triangle_resolve o a b c hj (by omega)]
      simp [List.append_assoc]

theorem emit_open_whole_triangles (aMeshIndex : Option mesh_index_t)
    (o : List Nat × List Nat) (result : List meshlet) (ho : o.2.length % 3 = 0)
    (hr : ∀ m ∈ result, m.mIndexCount % 3 = 0) :
    ∀ m ∈ emit_open aMeshIndex o result, m.mIndexCount % 3 = 0 := by
  unfold emit_open
  split
  · exact hr
  · intro m hm
    rw [List.mem_append, List.mem_singleton] at hm
    rcases hm with h | h
    · exact hr m h
    · subst h
      exact ho

theorem divider_walk_whole_triangles (aMeshIndex : Option mesh_index_t) (maxV maxI : Nat) :
    ∀ (stream : List Nat) (o : List Nat × List Nat) (result : List meshlet),
      o.2.length % 3 = 0 → (∀ m ∈ result, m.mIndexCount % 3 = 0) →
      ∀ m ∈ divider_walk aMeshIndex maxV maxI stream o result, m.mIndexCount % 3 = 0
  | [], o, result, ho, hr => by
    rw [divider_walk]
    · exact emit_open_whole_triangles aMeshIndex o result ho hr
    · intro a b c rest h
      cases h
  | [_], o, result, ho, hr => by
    rw [divider_walk]
    · exact emit_open_whole_triangles aMeshIndex o result ho hr
    · intro a b c rest h
      cases h
  | [_, _], o, result, ho, hr => by
    rw [divider_walk]
    · exact emit_open_whole_triangles aMeshIndex o result ho hr
    · intro a b c rest h
      cases h
  | a :: b :: c :: rest, o, result, ho, hr => by
    rw [divider_walk]
    split
    · exact divider_walk_whole_triangles aMeshIndex maxV maxI rest _ _
        (by rw [append_triangle_indices, List.length_append]; simp)
        (emit_open_whole_triangles aMeshIndex o result ho hr)
    · exact divider_walk_whole_triangles aMeshIndex maxV maxI rest _ _
        (by rw [append_triangle_indices, List.length_append]
            simp only [List.length_cons, List.length_nil]
            omega) hr

set_option maxRecDepth 100000 in
/-- C17, as stated, fails: for the index stream `0, 1, ..., 257` (86 triangles over 258
vertices) with `maxVertices = 258` and `maxIndices = 258`, the divider keeps all triangles
in one meshlet; the vertex at position 256 of its vertex list gets the local index
`256 mod 256 = 0`, because local indices are bytes, so entry 256 of the resolved stream is
vertex `0`, whereas entry 256 of the original stream is `256`. -/
theorem C17_counterexample :
    (List.range 258).length % 3 = 0 ∧
    (resolved_stream (basic_meshlets_divider (List.range 258) 0 none 258 258))[256]? =
      some (some 0) ∧
    ((List.range 258).map some)[256]? = some (some 256) ∧
    resolved_stream (basic_meshlets_divider (List.range 258) 0 none 258 258) ≠
      (List.range 258).map some := by
  have h1 : (resolved_stream (basic_meshlets_divider (List.range 258) 0 none 258 258))[256]? =
      some (some 0) := by decide
  have h2 : ((List.range 258).map some)[256]? = some (some 256) := by decide
  refine ⟨by decide, h1, h2, ?_⟩
  intro h
  rw [h, h2] at h1
  revert h1
  decide

/-- C17 (amended): the default divider loses nothing when `maxVertices ≤ 256`. For every
index stream whose length is a multiple of 3, every `maxIndices` and every
`maxVertices ≤ 256`, resolving each meshlet's local indices through its own vertex list
(`mVertices[mIndices[j]]` for `j < indexCount`) and concatenating the results in meshlet
order reproduces the original index stream exactly, and every meshlet holds whole triangles
(`indexCount % 3 = 0`), so that no triangle is reordered, dropped, duplicated or split
across meshlets. -/
theorem C17_default_divider_loses_nothing (aIndices : List Nat) (aModel : model_t)
    (aMeshIndex : Option mesh_index_t) (aMaxVertices aMaxIndices : Nat)
    (hlen : aIndices.length % 3 = 0) (hsmall : aMaxVertices ≤ 256) :
    resolved_stream
        (basic_meshlets_divider aIndices aModel aMeshIndex aMaxVertices aMaxIndices) =
      aIndices.map some ∧
    ∀ m ∈ basic_meshlets_divider aIndices aModel aMeshIndex aMaxVertices aMaxIndices,
      m.mIndexCount % 3 = 0 := by
  constructor
  · unfold basic_meshlets_divider
    rw [divider_walk_resolves aMeshIndex aMaxVertices aMaxIndices hsmall aIndices ([], []) []
      hlen (by simp)]
    simp [resolved_stream, resolve_open]
  · exact divider_walk_whole_triangles aMeshIndex aMaxVertices aMaxIndices aIndices ([], []) []
      rfl (by simp)

/-- C17 witness: twelve indices (four triangles over the vertices 0 to 7), `maxVertices = 6`,
`maxIndices = 9`. -/
theorem C17_witness :
    resolved_stream (basic_meshlets_divider [0, 1, 2, 2, 1, 3, 4, 5, 6, 6, 5, 7] 0 none 6 9) =
      [0, 1, 2, 2, 1, 3, 4, 5, 6, 6, 5, 7].map some ∧
    ∀ m ∈ basic_meshlets_divider [0, 1, 2, 2, 1, 3, 4, 5, 6, 6, 5, 7] 0 none 6 9,
      m.mIndexCount % 3 = 0 :=
  C17_default_divider_loses_nothing [0, 1, 2, 2, 1, 3, 4, 5, 6, 6, 5, 7] 0 none 6 9
    (by decide) (by decide)

end gvk
